import Mathlib

/-!
# Verification of the GiST vacuum engine and its BlockSet data structure

This development gives a shallow embedding of:

* `src/backend/lib/blockset.c` — a sparse set of 32-bit block numbers
  implemented as a 4-level radix tree (256-way branching, bitmap leaves);
* the copy of the same data structure embedded in the two-phase GiST
  vacuum code (`gistvacuum.c`), which differs from the library version in
  one loop bound (`byte_mask <= 0x70` instead of `byte_mask < 256`);
* the two-phase vacuum engine itself (`gistbulkdelete`, `gistvacuumscan`,
  `gistvacuumpage`, `gistvacuumcleanup`).

Machine integers (`BlockNumber` = uint32, bytes, masks) are modelled as
`Nat`; all the C arithmetic on them (`% 256`, `/ 256`, `&`, `|`, `<<`)
stays within `Nat` ranges where C and `Nat` agree, except where noted
(the one wrapping decrement `emptyPages--` is modelled with an explicit
mod-2^32 decrement).
-/

namespace GistVacuum

/-- `InvalidBlockNumber` = `0xFFFFFFFF`. -/
def InvalidBlockNumber : Nat := 4294967295

/-! ## BlockSet: the 4-level radix tree

`BlockSetLevel4Data` is `char data[256/8]`, modelled as a function from
byte index (0..31) to byte value (0..255).  The three upper levels are
256-entry arrays of nullable pointers, modelled as functions from index
to `Option` of the child type.  A `BlockSet` itself is a nullable pointer
to the root (`NULL` = empty set never allocated). -/

def BlockSetLevel4 := Nat → Nat

def BlockSetLevel3 := Nat → Option BlockSetLevel4

def BlockSetLevel2 := Nat → Option BlockSetLevel3

def BlockSetData := Nat → Option BlockSetLevel2

def BlockSet := Option BlockSetData

/-- A fresh `palloc0`-ed level-4 node: all bytes zero. -/
def emptyL4 : BlockSetLevel4 := fun _ => 0

/-- A fresh `palloc0`-ed level-3 node: all children NULL. -/
def emptyL3 : BlockSetLevel3 := fun _ => none

/-- A fresh `palloc0`-ed level-2 node: all children NULL. -/
def emptyL2 : BlockSetLevel2 := fun _ => none

/-- A fresh `palloc0`-ed root node: all children NULL. -/
def emptyRoot : BlockSetData := fun _ => none

/-- In-place update of one slot of a 256-entry array. -/
def updateFn {α : Type} (f : Nat → α) (i : Nat) (v : α) : Nat → α :=
  fun j => if j = i then v else f j

/-! The `BLOCKSET_SPLIT_BLKNO` macro: multiplex a block number into the
radix-tree indexes `i1 i2 i3 i4`, `byte_no`, `byte_mask`. -/

/-- `i4 = blkno % 256`. -/
def splitI4 (blkno : Nat) : Nat := blkno % 256

/-- `i3 = (blkno / 256) % 256`. -/
def splitI3 (blkno : Nat) : Nat := blkno / 256 % 256

/-- `i2 = (blkno / 256 / 256) % 256`. -/
def splitI2 (blkno : Nat) : Nat := blkno / 256 / 256 % 256

/-- `i1 = blkno / 256 / 256 / 256`. -/
def splitI1 (blkno : Nat) : Nat := blkno / 256 / 256 / 256

/-- `byte_no = i4 / 8`. -/
def splitByteNo (blkno : Nat) : Nat := splitI4 blkno / 8

/-- `byte_mask = 1 << (i4 % 8)`. -/
def splitByteMask (blkno : Nat) : Nat := 2 ^ (splitI4 blkno % 8)

/-- `blockset_set(bs, blkno)`: mark the block present, allocating the
radix path as needed (`palloc0` for each missing node), and return the
(possibly newly allocated) set.  Identical in the library and the
embedded copy. -/
def blockset_set (bs : BlockSet) (blkno : Nat) : BlockSet :=
  let root := bs.getD emptyRoot
  let bs2 := (root (splitI1 blkno)).getD emptyL2
  let bs3 := (bs2 (splitI2 blkno)).getD emptyL3
  let bs4 := (bs3 (splitI3 blkno)).getD emptyL4
  let bs4' := updateFn bs4 (splitByteNo blkno)
      (splitByteMask blkno ||| bs4 (splitByteNo blkno))
  some (updateFn root (splitI1 blkno)
    (some (updateFn bs2 (splitI2 blkno)
      (some (updateFn bs3 (splitI3 blkno) (some bs4'))))))

/-- `blockset_get(blkno, bs)`: test presence.  The C code returns the int
`bs4->data[byte_no] & byte_mask` converted to bool (nonzero test).
Identical in the library and the embedded copy. -/
def blockset_get (blkno : Nat) : BlockSet → Bool
  | none => false
  | some root =>
    match root (splitI1 blkno) with
    | none => false
    | some bs2 =>
      match bs2 (splitI2 blkno) with
      | none => false
      | some bs3 =>
        match bs3 (splitI3 blkno) with
        | none => false
        | some bs4 => (bs4 (splitByteNo blkno)) &&& splitByteMask blkno ≠ 0

/-! ### `blockset_next`

The innermost loop of `blockset_next` differs between the two copies:

* library (`blockset.c` line 152): `while (byte_mask < 256)`
* embedded (`gistvacuum.c` line 158): `while (byte_mask <= 0x70)`

Since `byte_mask` is an integer, `byte_mask <= 0x70` is equivalent to
`byte_mask < 113`; we parameterize the scan by this `maskLimit`
(256 for the library copy, 113 for the embedded copy) and keep every
other token of the two copies identical, as they are in C.

The C loops resume from the indexes produced by `BLOCKSET_SPLIT_BLKNO`
and reset an inner index only at the natural end of its enclosing loop
body (a `continue` on a NULL child or zero byte skips the reset), so the
model threads every loop variable through the recursion explicitly. -/

/-- The C hit computation `i4 = byte_no * 8; while (byte_mask >>= 1) i4++;`:
count how often the mask can be right-shifted before it becomes zero
(= `log2` of the mask for a nonzero mask).  The shift loop runs at most
as often as the mask has bits, so a fuel of 32 is exact for every mask
below `2^32` (masks here are always below 256). -/
def maskShiftsAux : Nat → Nat → Nat
  | 0, _ => 0
  | fuel + 1, byte_mask =>
    if byte_mask >>> 1 = 0 then 0 else maskShiftsAux fuel (byte_mask >>> 1) + 1

/-- `while (byte_mask >>= 1) i4++` starting from `i4 = 0`. -/
def maskShifts (byte_mask : Nat) : Nat := maskShiftsAux 32 byte_mask

/-- The innermost `while (byte_mask < maskLimit)` loop: scan byte value
`byteVal` for a set bit at `byte_mask` or above, returning the bit index
(the caller adds `byte_no * 8`).  The mask at least doubles every
iteration (and a zero mask terminates at once because `0 & v == 0`), so
a fuel of `maskLimit` is exact. -/
def scanMaskAux (maskLimit byteVal : Nat) : Nat → Nat → Option Nat
  | 0, _ => none
  | fuel + 1, byte_mask =>
    if byte_mask < maskLimit then
      if byte_mask &&& byteVal = byte_mask then
        some (maskShifts byte_mask)
      else
        scanMaskAux maskLimit byteVal fuel (byte_mask <<< 1)
    else
      none

/-- Entry point of the `while (byte_mask < maskLimit)` loop. -/
def scanMask (maskLimit byteVal byte_mask : Nat) : Option Nat :=
  scanMaskAux maskLimit byteVal maskLimit byte_mask

/-- The `for (; byte_no < 256/8; byte_no++)` loop over the 32 bytes of a
level-4 bitmap, with the fuel in lockstep with the loop index
(`fuel = 32 - byte_no`).  A zero byte is skipped by `continue`, which
also skips the `byte_mask = 1` reset, so the incoming mask is carried
over; a nonzero byte is scanned from the current mask, and if nothing is
found the mask is reset to 1 for the following bytes.  Returns the found
`i4` (bit position within the bitmap) and the final value of `byte_mask`
at loop exit. -/
def scanBytesAux (maskLimit : Nat) (data : BlockSetLevel4) :
    Nat → Nat → Nat → Option Nat × Nat
  | 0, _, byte_mask => (none, byte_mask)
  | fuel + 1, byte_no, byte_mask =>
    if data byte_no = 0 then
      scanBytesAux maskLimit data fuel (byte_no + 1) byte_mask
    else
      match scanMask maskLimit (data byte_no) byte_mask with
      | some bit => (some (byte_no * 8 + bit), byte_mask)
      | none => scanBytesAux maskLimit data fuel (byte_no + 1) 1

/-- Entry point of the byte loop (`byte_no < 32` is `fuel > 0`). -/
def scanBytes (maskLimit : Nat) (data : BlockSetLevel4) (byte_no byte_mask : Nat) :
    Option Nat × Nat :=
  scanBytesAux maskLimit data (32 - byte_no) byte_no byte_mask

/-- One of the three structurally identical `for (; i < 256; i++)` loops
over a 256-entry child array, with the fuel in lockstep with the loop
index (`fuel = 256 - i`).  A NULL child is skipped by `continue`,
carrying the inner loop state `s` unchanged; a present child is scanned
by `sub`; if the child scan fails, the C code resets the child's own
loop indexes (`byte_no = 0` resp. `i3 = 0` resp. `i2 = 0`) before the
next iteration, modelled by `reset`.  On success the C code returns
`v + w * i` folded into the enclosing levels.  Returns the result plus
the values of this loop's index and the inner state at loop exit. -/
def scanLevelAux {α σ : Type} (sub : α → σ → Option Nat × σ) (reset : σ → σ) (w : Nat)
    (child : Nat → Option α) : Nat → Nat → σ → Option Nat × (Nat × σ)
  | 0, i, s => (none, (i, s))
  | fuel + 1, i, s =>
    match child i with
    | none => scanLevelAux sub reset w child fuel (i + 1) s
    | some c =>
      match sub c s with
      | (some v, s') => (some (w * i + v), (i, s'))
      | (none, s') => scanLevelAux sub reset w child fuel (i + 1) (reset s')

/-- Entry point of a 256-entry child-array loop (`i < 256` is `fuel > 0`). -/
def scanLevel {α σ : Type} (sub : α → σ → Option Nat × σ) (reset : σ → σ) (w : Nat)
    (child : Nat → Option α) (i : Nat) (s : σ) : Option Nat × (Nat × σ) :=
  scanLevelAux sub reset w child (256 - i) i s

/-- Loop state of the byte loop: `(byte_no, byte_mask)`. -/
abbrev Sigma4 := Nat × Nat

/-- Scan one level-4 bitmap starting from state `(byte_no, byte_mask)`;
the exit `byte_no` value (32) is irrelevant because the enclosing loop
always resets it (`byte_no = 0`) after a completed scan. -/
def subL4 (maskLimit : Nat) (data : BlockSetLevel4) (s : Sigma4) : Option Nat × Sigma4 :=
  match scanBytes maskLimit data s.1 s.2 with
  | (r, m') => (r, (32, m'))

/-- The `for (; i3 < 256; i3++)` loop: returns `i4 + 256 * i3` on
success; after each completed bitmap scan the code does `byte_no = 0`. -/
def scanL4s (maskLimit : Nat) (bs3 : BlockSetLevel3) (i3 : Nat) (s : Sigma4) :
    Option Nat × (Nat × Sigma4) :=
  scanLevel (subL4 maskLimit) (fun s => (0, s.2)) 256 bs3 i3 s

/-- Scan one level-3 node starting from state `(i3, byte_no, byte_mask)`. -/
def subL3 (maskLimit : Nat) (bs3 : BlockSetLevel3) (s : Nat × Sigma4) :
    Option Nat × (Nat × Sigma4) :=
  scanL4s maskLimit bs3 s.1 s.2

/-- The `for (; i2 < 256; i2++)` loop: returns
`i4 + 256 * (i3 + 256 * i2)` on success; after each completed level-3
scan the code does `i3 = 0`. -/
def scanL3s (maskLimit : Nat) (bs2 : BlockSetLevel2) (i2 : Nat) (s : Nat × Sigma4) :
    Option Nat × (Nat × (Nat × Sigma4)) :=
  scanLevel (subL3 maskLimit) (fun s => (0, s.2)) 65536 bs2 i2 s

/-- Scan one level-2 node starting from state `(i2, i3, byte_no, byte_mask)`. -/
def subL2 (maskLimit : Nat) (bs2 : BlockSetLevel2) (s : Nat × Nat × Sigma4) :
    Option Nat × (Nat × (Nat × Sigma4)) :=
  scanL3s maskLimit bs2 s.1 s.2

/-- The `for (; i1 < 256; i1++)` loop: returns
`i4 + 256 * (i3 + 256 * (i2 + 256 * i1))` on success; after each
completed level-2 scan the code does `i2 = 0`. -/
def scanL2s (maskLimit : Nat) (root : BlockSetData) (i1 : Nat) (s : Nat × Nat × Sigma4) :
    Option Nat × (Nat × (Nat × Nat × Sigma4)) :=
  scanLevel (subL2 maskLimit) (fun s => (0, s.2)) 16777216 root i1 s

/-- `blockset_next(bs, blkno)`, parameterized by the `maskLimit` of the
innermost loop (256 = library copy, 113 = embedded copy).  The input is
incremented (the sentinel `InvalidBlockNumber` becomes 0), split by
`BLOCKSET_SPLIT_BLKNO`, and the four nested loops are run from those
start indexes. -/
def blockset_next_impl (maskLimit : Nat) (bs : BlockSet) (blkno : Nat) : Nat :=
  let b := if blkno = InvalidBlockNumber then 0 else blkno + 1
  match bs with
  | none => InvalidBlockNumber
  | some root =>
    match (scanL2s maskLimit root (splitI1 b)
        (splitI2 b, splitI3 b, splitByteNo b, splitByteMask b)).1 with
    | some v => v
    | none => InvalidBlockNumber

/-- The library `blockset_next` (`src/backend/lib/blockset.c`):
`while (byte_mask < 256)`. -/
def blockset_next (bs : BlockSet) (blkno : Nat) : Nat :=
  blockset_next_impl 256 bs blkno

/-- The `blockset_next` copy embedded in `gistvacuum.c`:
`while (byte_mask <= 0x70)`, i.e. `byte_mask < 113`. -/
def blockset_next_emb (bs : BlockSet) (blkno : Nat) : Nat :=
  blockset_next_impl 113 bs blkno

/-- Build a set by a sequence of `blockset_set` calls starting from the
empty (NULL) set. -/
def blockset_build (l : List Nat) : BlockSet :=
  l.foldl blockset_set none

/-- Enumerate a `BlockSet` by iterating `blockset_next` (library copy)
starting from `x`, collecting results until the sentinel is returned (or
the fuel runs out). -/
def blockset_enum (bs : BlockSet) : Nat → Nat → List Nat
  | 0, _ => []
  | fuel + 1, x =>
    let x' := blockset_next bs x
    if x' = InvalidBlockNumber then [] else x' :: blockset_enum bs fuel x'

/-! ### Specification-side membership predicates

Structural membership in the radix tree, level by level: these describe
the tree contents directly (which bit of which allocated bitmap is set)
and are related to `blockset_get` by `blockset_get_eq_l1mem` below. -/

/-- Membership of a position `p < 256` in a level-4 bitmap. -/
def l4mem (data : BlockSetLevel4) (p : Nat) : Bool :=
  (data (p / 8)).testBit (p % 8)

/-- Membership of a value below `256 * w` in a 256-entry array of
optional children, each covering `w` consecutive values. -/
def memLevel {α : Type} (memChild : α → Nat → Bool) (w : Nat)
    (child : Nat → Option α) (v : Nat) : Bool :=
  match child (v / w) with
  | none => false
  | some c => memChild c (v % w)

/-- Membership of a value below `2^16` in a level-3 node. -/
def l3mem : BlockSetLevel3 → Nat → Bool := memLevel l4mem 256

/-- Membership of a value below `2^24` in a level-2 node. -/
def l2mem : BlockSetLevel2 → Nat → Bool := memLevel l3mem 65536

/-- Membership of a value below `2^32` in a root node. -/
def l1mem : BlockSetData → Nat → Bool := memLevel l2mem 16777216

/-- `r` is the least value `v` with `lo ≤ v < bound` and `mem v`, as an
`Option` (`none` when there is no such value). -/
def IsLeastFrom (mem : Nat → Bool) (lo bound : Nat) (r : Option Nat) : Prop :=
  match r with
  | some v => lo ≤ v ∧ v < bound ∧ mem v = true ∧ ∀ u, lo ≤ u → u < v → mem u = false
  | none => ∀ u, lo ≤ u → u < bound → mem u = false

/-! ### Clean scan-start states

`blockset_next` resumes its four nested loops from the radix digits of
the incremented input and resets an inner index only at the natural end
of its enclosing loop body, so a `continue` over a NULL child (or zero
byte) carries the inner indexes over into the next subtree, where they
no longer describe a meaningful position ("stale indexes").  The scan
is provably correct from *clean* start states: those whose inner
indexes are either all at their reset values, or point into a subtree
that is actually allocated (which holds in particular when the start
position is 0 or just past a member).  The following predicates say
when a start state is clean at each level. -/

/-- The reset state of the byte loop: `byte_no = 0`, `byte_mask = 1`. -/
def sigma40 : Sigma4 := (0, 1)

/-- Start position (bit index within a level-4 bitmap) described by a
byte-loop state. -/
def startOf4 (s : Sigma4) : Nat := 8 * s.1 + Nat.log2 s.2

/-- Start position within a level-3 node described by an `(i3, bytes)`
state. -/
def startOf3 (s : Nat × Sigma4) : Nat := 256 * s.1 + startOf4 s.2

/-- Start position within a level-2 node described by an
`(i2, i3, bytes)` state. -/
def startOf2 (s : Nat × Nat × Sigma4) : Nat := 65536 * s.1 + startOf3 s.2

/-- A clean byte-loop start: the mask is a single bit at most `2^7`,
and either it is the reset mask `1`, or the start byte is in range and
nonzero (so the stale mask is scanned against the byte it was derived
from, or a byte that includes the position it stands for). -/
def CleanBytes (data : BlockSetLevel4) (s : Sigma4) : Prop :=
  ∃ k, k ≤ 7 ∧ s.2 = 2 ^ k ∧ ((k = 0 ∧ s.1 ≤ 32) ∨ (s.1 < 32 ∧ data s.1 ≠ 0))

/-- A clean `i3`-loop start: inner state at its reset value, or pointing
into an allocated bitmap cleanly. -/
def CleanL3 (bs3 : BlockSetLevel3) (s : Nat × Sigma4) : Prop :=
  (s.2 = sigma40 ∧ s.1 ≤ 256) ∨
  (s.1 < 256 ∧ ∃ d, bs3 s.1 = some d ∧ CleanBytes d s.2)

/-- A clean `i2`-loop start. -/
def CleanL2 (bs2 : BlockSetLevel2) (s : Nat × Nat × Sigma4) : Prop :=
  (s.2 = (0, sigma40) ∧ s.1 ≤ 256) ∨
  (s.1 < 256 ∧ ∃ c, bs2 s.1 = some c ∧ CleanL3 c s.2)

/-- A clean `i1`-loop start. -/
def CleanL1 (root : BlockSetData) (i1 : Nat) (s : Nat × Nat × Sigma4) : Prop :=
  (s = (0, 0, sigma40) ∧ i1 ≤ 256) ∨
  (i1 < 256 ∧ ∃ c, root i1 = some c ∧ CleanL2 c s)

/-! ## The two-phase GiST vacuum engine (`gistvacuum.c`)

The disk-resident index is modelled as a function from block number to
page.  The model is sequential: it describes the behaviour of the
engine's own reads and writes (no concurrent mutator is interleaved), so
locking, `ReadBufferExtended`/`UnlockReleaseBuffer`, WAL records and the
free-space map (all external collaborators without vacuum-visible
state) have no model counterpart.  `GetInsertRecPtr`/`gistGetFakeLSN`
(the scan-start NSN) and `ReadNewTransactionId` (the deletion horizon)
are external oracles modelled as parameters `startNSN` and `txid`. -/

/-- An index tuple: the block number stored in its `t_tid` (a heap block
for leaf tuples, a child block for downlinks) and the
`GistTupleIsInvalid` flag. -/
structure IndexTupleM where
  tidBlock : Nat
  invalid : Bool
deriving DecidableEq

/-- One page of the index.  `isNew` is `PageIsNew`, `isDeleted` is
`GistPageIsDeleted`, `isLeaf` is `GistPageIsLeaf`; `tuples` are the line
pointers in offset order (`PageGetMaxOffsetNumber` = `tuples.length`,
offset `off` holds `tuples[off-1]`); `nsn` is `GistPageGetNSN`,
`followRight` is `GistFollowRight`, `rightlink` is
`opaque->rightlink`, `deleteXid` is the `GistPageSetDeleteXid` slot and
`tuplesDeleted` the `F_TUPLES_DELETED` flag set by
`GistMarkTuplesDeleted`. -/
structure GistPageM where
  isNew : Bool
  isDeleted : Bool
  isLeaf : Bool
  tuples : List IndexTupleM
  nsn : Nat
  followRight : Bool
  rightlink : Nat
  deleteXid : Nat
  tuplesDeleted : Bool
deriving DecidableEq

/-- The index: block number → page contents. -/
def Store := Nat → GistPageM

/-- Write one page of the index. -/
def setPage (st : Store) (blkno : Nat) (p : GistPageM) : Store :=
  fun b => if b = blkno then p else st b

/-- `IndexBulkDeleteResult` (the fields this engine touches). -/
structure IndexBulkDeleteResult where
  num_pages : Nat
  estimated_count : Bool
  num_index_tuples : Nat
  tuples_removed : Nat
  pages_deleted : Nat
  pages_free : Nat
deriving DecidableEq

/-- A freshly `palloc0`-ed stats struct. -/
def emptyStats : IndexBulkDeleteResult :=
  { num_pages := 0, estimated_count := false, num_index_tuples := 0,
    tuples_removed := 0, pages_deleted := 0, pages_free := 0 }

/-- The fields of `IndexVacuumInfo` consulted by `gistvacuumcleanup`. -/
structure IndexVacuumInfoM where
  analyze_only : Bool
  estimated_count : Bool
  num_heap_tuples : Nat

/-- `GistVacState` (minus the `info`/`stats`/callback pointers, passed
separately): scan-start NSN, free/empty page counters and the two
BlockSets. -/
structure GistVacState where
  startNSN : Nat
  totFreePages : Nat
  emptyPages : Nat
  internalPagesMap : BlockSet
  emptyLeafPagesMap : BlockSet

/-- The full mutable state threaded through one vacuum scan: the index
pages, the statistics being accumulated, and the `GistVacState`. -/
structure VacScanState where
  store : Store
  stats : IndexBulkDeleteResult
  vstate : GistVacState

/-- The caller-supplied deletion callback (`IndexBulkDeleteCallback`
applied to a tuple's `t_tid`); `none` models a NULL callback. -/
def VacCallback := Option (IndexTupleM → Bool)

/-- The body of `gistvacuumpage` for one block (everything between
`restart:` and the final `goto restart` test): process page `blkno`,
returning the updated state and the `recurse_to` block (`none` stands
for `InvalidBlockNumber`).  `orig_blkno` is the block the outer loop is
at.  The `ereport(LOG, ...)` for invalid tuples on internal pages
mutates no vacuum state and has no model counterpart. -/
def gistvacuumpageBody (callback : VacCallback) (s : VacScanState)
    (blkno orig_blkno : Nat) : VacScanState × Option Nat :=
  let page := s.store blkno
  if page.isNew || page.isDeleted then
    -- RecordFreeIndexPage; vstate->totFreePages++; stats->pages_deleted++
    ({ s with
        stats := { s.stats with pages_deleted := s.stats.pages_deleted + 1 },
        vstate := { s.vstate with totFreePages := s.vstate.totFreePages + 1 } },
      none)
  else if page.isLeaf then
    let recurse_to : Option Nat :=
      if (page.followRight = true ∨ s.vstate.startNSN < page.nsn) ∧
         page.rightlink ≠ InvalidBlockNumber ∧ page.rightlink < orig_blkno then
        some page.rightlink
      else
        none
    let afterDelete : VacScanState :=
      match callback with
      | none => s
      | some f =>
        let ntodelete := (page.tuples.filter (fun t => f t)).length
        if 0 < ntodelete then
          { s with
              store := setPage s.store blkno
                { page with tuples := page.tuples.filter (fun t => !f t),
                            tuplesDeleted := true },
              stats := { s.stats with
                tuples_removed := s.stats.tuples_removed + ntodelete } }
        else
          s
    let nremain := ((afterDelete.store blkno).tuples).length
    if nremain = 0 then
      ({ afterDelete with
          vstate := { afterDelete.vstate with
            emptyLeafPagesMap := blockset_set afterDelete.vstate.emptyLeafPagesMap blkno,
            emptyPages := afterDelete.vstate.emptyPages + 1 } },
        recurse_to)
    else
      ({ afterDelete with
          stats := { afterDelete.stats with
            num_index_tuples := afterDelete.stats.num_index_tuples + nremain } },
        recurse_to)
  else
    ({ s with
        vstate := { s.vstate with
          internalPagesMap := blockset_set s.vstate.internalPagesMap blkno } },
      none)

/-- `gistvacuumpage`: the body above plus the hand-optimized tail
recursion (`goto restart`) that chases `recurse_to` right-links.  The
fuel only bounds the length of a right-link chain followed for one
top-level block (the C loop would spin on a cyclic chain, which a sane
index does not contain). -/
def gistvacuumpage (callback : VacCallback) :
    Nat → VacScanState → Nat → Nat → VacScanState
  | 0, s, _, _ => s
  | fuel + 1, s, blkno, orig_blkno =>
    match gistvacuumpageBody callback s blkno orig_blkno with
    | (s', none) => s'
    | (s', some r) => gistvacuumpage callback fuel s' r orig_blkno

/-- Phase 1 of `gistvacuumscan`: the ascending loop over all blocks from
`GIST_ROOT_BLKNO` (0).  In this sequential model the relation length is
constant, so the outer re-check loop of the C code runs the inner loop
exactly once and then exits. -/
def gistvacuumscanPhase1 (callback : VacCallback) (chaseFuel numPages : Nat)
    (s : VacScanState) : VacScanState :=
  (List.range numPages).foldl
    (fun s b => gistvacuumpage callback chaseFuel s b b) s

/-- The downlink-checking loop of phase 2, for one internal page: walk
the downlinks (`off` is 1-based, `maxoff` the downlink count), and queue
`(offset, leaf block)` for deletion when the target is recorded in
`emptyLeafPagesMap`, is still a leaf, still holds zero entries, has no
follow-right and no NSN newer than the *internal page's* NSN
(`GistPageGetNSN(page) < GistPageGetNSN(leafPage)` in the C code), and
fewer than `maxoff - 1` downlinks are queued so far. -/
def phase2Collect (store : Store) (emptyMap : BlockSet) (parentNSN maxoff : Nat) :
    List IndexTupleM → Nat → List (Nat × Nat) → List (Nat × Nat)
  | [], _, acc => acc
  | t :: rest, off, acc =>
    if blockset_get t.tidBlock emptyMap then
      let leafPage := store t.tidBlock
      if leafPage.isLeaf then
        if leafPage.tuples.length = 0 ∧
           ¬(leafPage.followRight = true ∨ parentNSN < leafPage.nsn) ∧
           acc.length < maxoff - 1 then
          phase2Collect store emptyMap parentNSN maxoff rest (off + 1) (acc ++ [(off, t.tidBlock)])
        else
          phase2Collect store emptyMap parentNSN maxoff rest (off + 1) acc
      else
        phase2Collect store emptyMap parentNSN maxoff rest (off + 1) acc
    else
      phase2Collect store emptyMap parentNSN maxoff rest (off + 1) acc

/-- One iteration of the deletion loop inside the phase-2 critical
section, for queued item `(off, leafBlk)` at position `i`: stamp the
leaf's delete-xid, mark it deleted, bump `pages_deleted`, decrement
`emptyPages` (a uint32 decrement, hence the explicit wrap) and delete
the downlink at offset `off - i` (offsets shift down as earlier
downlinks of the same page are deleted). -/
def phase2ApplyOne (txid parentBlk : Nat) (s : VacScanState)
    (i : Nat) (item : Nat × Nat) : VacScanState :=
  let leafPage := s.store item.2
  let store1 := setPage s.store item.2
    { leafPage with deleteXid := txid, isDeleted := true }
  let parent := store1 parentBlk
  let store2 := setPage store1 parentBlk
    { parent with tuples := parent.tuples.eraseIdx (item.1 - i - 1) }
  { s with
      store := store2,
      stats := { s.stats with pages_deleted := s.stats.pages_deleted + 1 },
      vstate := { s.vstate with
        emptyPages := (s.vstate.emptyPages + 4294967295) % 4294967296 } }

/-- The whole phase-2 critical section for one internal page. -/
def phase2Apply (txid parentBlk : Nat) (s : VacScanState)
    (items : List (Nat × Nat)) : VacScanState :=
  (items.enum).foldl (fun s p => phase2ApplyOne txid parentBlk s p.1 p.2) s

/-- Process one internal page in phase 2: skip it if it became
new/deleted/leaf since phase 1, otherwise run the downlink-checking loop
and apply the queued deletions (an empty queue applies nothing, matching
the `if (ntodelete)` guard). -/
def phase2ProcessPage (txid : Nat) (s : VacScanState) (blkno : Nat) : VacScanState :=
  let page := s.store blkno
  if page.isNew || page.isDeleted || page.isLeaf then
    s
  else
    phase2Apply txid blkno s
      (phase2Collect s.store s.vstate.emptyLeafPagesMap page.nsn
        page.tuples.length page.tuples 1 [])

/-- The phase-2 driver loop:
`while (vstate.emptyPages > 0 && (x = blockset_next(internalPagesMap, x)) != InvalidBlockNumber)`,
using the *embedded* `blockset_next`.  The fuel bounds the number of
internal pages visited; each returned `x` is strictly larger than the
previous one, so `numPages` fuel is always enough for a real index. -/
def phase2Loop (txid : Nat) : Nat → VacScanState → Nat → VacScanState
  | 0, s, _ => s
  | fuel + 1, s, x =>
    if 0 < s.vstate.emptyPages then
      let x' := blockset_next_emb s.vstate.internalPagesMap x
      if x' = InvalidBlockNumber then s
      else phase2Loop txid fuel (phase2ProcessPage txid s x') x'
    else s

/-- Specification-side count of the leaves retired by the phase-2 loop:
the sum, over the internal pages the loop processes, of the `ntodelete`
value each processing computes.  Follows `phase2Loop` in lockstep. -/
def phase2RetiredSum (txid : Nat) : Nat → VacScanState → Nat → Nat
  | 0, _, _ => 0
  | fuel + 1, s, x =>
    if 0 < s.vstate.emptyPages then
      let x' := blockset_next_emb s.vstate.internalPagesMap x
      if x' = InvalidBlockNumber then 0
      else
        let page := s.store x'
        let n :=
          if page.isNew || page.isDeleted || page.isLeaf then 0
          else (phase2Collect s.store s.vstate.emptyLeafPagesMap page.nsn
            page.tuples.length page.tuples 1 []).length
        n + phase2RetiredSum txid fuel (phase2ProcessPage txid s x') x'
    else 0

/-- `gistvacuumscan` up to the end of phase 1: reset the running stats,
run the physical scan, then store `num_pages` and `pages_free`
(`IndexFreeSpaceMapVacuum` touches no vacuum-visible state). -/
def gistvacuumscanPhase1End (callback : VacCallback) (startNSN chaseFuel : Nat)
    (store : Store) (numPages : Nat) (stats : IndexBulkDeleteResult) : VacScanState :=
  let stats1 := { stats with estimated_count := false, num_index_tuples := 0,
                             pages_deleted := 0 }
  let s0 : VacScanState :=
    { store := store, stats := stats1,
      vstate := { startNSN := startNSN, totFreePages := 0, emptyPages := 0,
                  internalPagesMap := none, emptyLeafPagesMap := none } }
  let s1 := gistvacuumscanPhase1 callback chaseFuel numPages s0
  { s1 with stats := { s1.stats with num_pages := numPages,
                                     pages_free := s1.vstate.totFreePages } }

/-- All of `gistvacuumscan`: phase 1, then — only if the scan recorded
empty leaf pages — the phase-2 rescan of internal pages
(`blockset_free` deallocates only). -/
def gistvacuumscan (callback : VacCallback) (startNSN txid chaseFuel p2Fuel : Nat)
    (store : Store) (numPages : Nat) (stats : IndexBulkDeleteResult) : VacScanState :=
  let s2 := gistvacuumscanPhase1End callback startNSN chaseFuel store numPages stats
  if 0 < s2.vstate.emptyPages then phase2Loop txid p2Fuel s2 InvalidBlockNumber
  else s2

/-- `gistbulkdelete`: allocate stats on first call, then run the scan
with the caller's callback. -/
def gistbulkdelete (callback : VacCallback) (startNSN txid chaseFuel p2Fuel : Nat)
    (store : Store) (numPages : Nat) (stats : Option IndexBulkDeleteResult) :
    VacScanState :=
  gistvacuumscan callback startNSN txid chaseFuel p2Fuel store numPages
    (stats.getD emptyStats)

/-- `gistvacuumcleanup`: a no-op in ANALYZE-only mode; otherwise run a
stats-only scan (NULL callback) if `gistbulkdelete` was never called,
then clamp `num_index_tuples` to `info->num_heap_tuples` when the
caller's heap count is not an estimate.  Returns the possibly-updated
index and the returned stats pointer (NULL exactly when called
ANALYZE-only with NULL stats). -/
def gistvacuumcleanup (info : IndexVacuumInfoM) (startNSN txid chaseFuel p2Fuel : Nat)
    (store : Store) (numPages : Nat) (stats : Option IndexBulkDeleteResult) :
    Store × Option IndexBulkDeleteResult :=
  if info.analyze_only then
    (store, stats)
  else
    let scanned : Store × IndexBulkDeleteResult :=
      match stats with
      | some st => (store, st)
      | none =>
        let r := gistvacuumscan none startNSN txid chaseFuel p2Fuel store numPages
          emptyStats
        (r.store, r.stats)
    let stats2 :=
      if info.estimated_count = false then
        if info.num_heap_tuples < scanned.2.num_index_tuples then
          { scanned.2 with num_index_tuples := info.num_heap_tuples }
        else
          scanned.2
      else
        scanned.2
    (scanned.1, some stats2)

/-! ## Concrete fixtures and derived definitions -/

/-- No byte of the bitmap has bit 7 set. -/
def NoBit7L4 (data : BlockSetLevel4) : Prop := ∀ b, (data b).testBit 7 = false
def NoBit7L3 (bs3 : BlockSetLevel3) : Prop := ∀ i d, bs3 i = some d → NoBit7L4 d
def NoBit7L2 (bs2 : BlockSetLevel2) : Prop := ∀ i c, bs2 i = some c → NoBit7L3 c
def NoBit7Root (root : BlockSetData) : Prop := ∀ i c, root i = some c → NoBit7L2 c
/-- The single-bit-mask invariant on the byte-loop state. -/
def MaskPow (s : Sigma4) : Prop := ∃ k, k ≤ 7 ∧ s.2 = 2 ^ k
/-- The mask invariant on the `(i3, bytes)` state. -/
def MaskPow3 (s : Nat × Sigma4) : Prop := MaskPow s.2
/-- The mask invariant on the `(i2, i3, bytes)` state. -/
def MaskPow2 (s : Nat × Nat × Sigma4) : Prop := MaskPow s.2.2
def blankPage : GistPageM :=
  { isNew := true, isDeleted := false, isLeaf := false, tuples := [], nsn := 0,
    followRight := false, rightlink := InvalidBlockNumber, deleteXid := 0,
    tuplesDeleted := false }
/-- A one-interesting-page index for the C7 witness: block 5 is a live
leaf with NSN 9 (newer than the scan-start NSN 4) and right link 2. -/
def chaseStore : Store := fun b =>
  if b = 5 then { blankPage with isNew := false, isLeaf := true, nsn := 9, rightlink := 2 }
  else blankPage
def chaseState : VacScanState :=
  { store := chaseStore, stats := emptyStats,
    vstate := { startNSN := 4, totFreePages := 0, emptyPages := 0,
                internalPagesMap := none, emptyLeafPagesMap := none } }
def leafTup (b : Nat) : IndexTupleM := { tidBlock := b, invalid := false }
def storeA : Store := fun b =>
  if b = 0 then { blankPage with isNew := false, isLeaf := false, nsn := 10, tuples := [leafTup 1, leafTup 2] }
  else if b = 1 then { blankPage with isNew := false, isLeaf := true, nsn := 5, tuples := [] }
  else if b = 2 then { blankPage with isNew := false, isLeaf := true, tuples := [leafTup 100] }
  else blankPage
def runA : VacScanState := gistbulkdelete (some (fun _ => false)) 1 77 8 8 storeA 3 none
def storeB : Store := fun b =>
  if b = 0 then { blankPage with isNew := false, nsn := 10, tuples := [leafTup 1, leafTup 2] }
  else if b = 1 then { blankPage with isNew := false, isLeaf := true, tuples := [] }
  else if b = 2 then { blankPage with isNew := false, isLeaf := true, tuples := [leafTup 100] }
  else blankPage
def infoB : IndexVacuumInfoM :=
  { analyze_only := false, estimated_count := false, num_heap_tuples := 100 }
def runB := gistvacuumcleanup infoB 1 77 8 8 storeB 3 none
def infoC : IndexVacuumInfoM :=
  { analyze_only := false, estimated_count := true, num_heap_tuples := 5 }
def statsTen : IndexBulkDeleteResult := { emptyStats with num_index_tuples := 10 }
def runC := gistvacuumcleanup infoC 1 77 8 8 storeB 3 (some statsTen)
def infoD : IndexVacuumInfoM :=
  { analyze_only := false, estimated_count := false, num_heap_tuples := 5 }
def runD := gistvacuumcleanup infoD 1 77 8 8 storeB 3 (some statsTen)
/-- A phase-2 state mid-run over `storeA`: the phase-1 maps record
internal page 0 and the empty leaf 1. -/
def p2State : VacScanState :=
  { store := storeA, stats := emptyStats,
    vstate := { startNSN := 1, totFreePages := 0, emptyPages := 1,
                internalPagesMap := blockset_set none 0,
                emptyLeafPagesMap := blockset_set none 1 } }
/-- What one vacuum step may do to a page: leave it alone, retire it
(it is then a leaf or marked deleted), or — for the internal page whose
downlinks are trimmed — keep its flags and keep it non-empty. -/
def StoreEvolves (s s' : Store) : Prop :=
  ∀ b, (s' b).isLeaf = true ∨ (s' b).isDeleted = true ∨ s' b = s b ∨
    ((s' b).isNew = (s b).isNew ∧ (s' b).isDeleted = (s b).isDeleted ∧
     (s' b).isLeaf = (s b).isLeaf ∧
     (0 < (s b).tuples.length → 0 < (s' b).tuples.length))
/-- The downlink invariant: every live internal page has at least one
downlink. -/
def StoreInv (s : Store) : Prop :=
  ∀ b, (s b).isNew = false → (s b).isDeleted = false → (s b).isLeaf = false →
    0 < (s b).tuples.length
/-- The index contents after a full run: bulk delete (with a callback,
no prior stats) followed by cleanup receiving the stats it returned. -/
def fullRunStore (cb : IndexTupleM → Bool) (info : IndexVacuumInfoM)
    (startNSN txid chaseFuel p2Fuel : Nat) (store0 : Store) (numPages : Nat) : Store :=
  let r := gistbulkdelete (some cb) startNSN txid chaseFuel p2Fuel store0 numPages none
  (gistvacuumcleanup info startNSN txid chaseFuel p2Fuel r.store numPages (some r.stats)).1

/-! # Proof development -/
set_option maxRecDepth 40000
theorem updateFn_eq {α : Type} (f : Nat → α) (i : Nat) (v : α) : updateFn f i v i = v := by
  simp [updateFn]
theorem updateFn_ne {α : Type} (f : Nat → α) (i j : Nat) (v : α) (h : j ≠ i) :
    updateFn f i v j = f j := by
  simp [updateFn, h]
/-- Reassembling a block number from its radix digits. -/
theorem split_reconstruct (b : Nat) :
    b = 16777216 * splitI1 b + 65536 * splitI2 b + 256 * splitI3 b +
        8 * splitByteNo b + splitI4 b % 8 := by
  unfold splitI1 splitI2 splitI3 splitByteNo splitI4
  omega
/-- The radix digits determine the block number. -/
theorem splitKey_inj {a b : Nat}
    (h1 : splitI1 a = splitI1 b) (h2 : splitI2 a = splitI2 b)
    (h3 : splitI3 a = splitI3 b) (h4 : splitByteNo a = splitByteNo b)
    (h5 : splitI4 a % 8 = splitI4 b % 8) : a = b := by
  have ra := split_reconstruct a
  have rb := split_reconstruct b
  omega
theorem splitI1_eq_div (b : Nat) : splitI1 b = b / 16777216 := by
  unfold splitI1; omega
theorem mod24_div16 (b : Nat) : b % 16777216 / 65536 = splitI2 b := by
  unfold splitI2; omega
theorem mod24_mod16 (b : Nat) : b % 16777216 % 65536 = b % 65536 := by
  omega
theorem mod16_div8 (b : Nat) : b % 65536 / 256 = splitI3 b := by
  unfold splitI3; omega
theorem mod16_mod8 (b : Nat) : b % 65536 % 256 = splitI4 b := by
  unfold splitI4; omega
theorem and_two_pow_ne_zero (x k : Nat) : (decide (x &&& 2 ^ k ≠ 0)) = x.testBit k := by
  rw [Nat.and_two_pow]
  have h2 : (2 : Nat) ^ k ≠ 0 := (Nat.two_pow_pos k).ne'
  rcases h : x.testBit k <;> simp [h, h2]
/-- `blockset_get` agrees with the structural membership predicate. -/
theorem blockset_get_eq_l1mem (b : Nat) (root : BlockSetData) :
    blockset_get b (some root) = l1mem root b := by
  have e1 : b / 16777216 = splitI1 b := (splitI1_eq_div b).symm
  rcases hroot : root (splitI1 b) with _ | bs2
  · simp [blockset_get, l1mem, memLevel, e1, hroot]
  · rcases h2 : bs2 (splitI2 b) with _ | bs3
    · simp [blockset_get, l1mem, l2mem, memLevel, e1, hroot, mod24_div16, mod24_mod16, h2]
    · rcases h3 : bs3 (splitI3 b) with _ | bs4
      · simp [blockset_get, l1mem, l2mem, l3mem, memLevel, e1, hroot, mod24_div16,
          mod24_mod16, mod16_div8, mod16_mod8, h2, h3]
      · simp only [blockset_get, l1mem, l2mem, l3mem, l4mem, memLevel, e1, hroot,
          mod24_div16, mod24_mod16, mod16_div8, mod16_mod8, h2, h3]
        rw [show splitI4 b / 8 = splitByteNo b from rfl]
        exact and_two_pow_ne_zero (bs4 (splitByteNo b)) (splitI4 b % 8)
theorem l4mem_empty (q : Nat) : l4mem emptyL4 q = false := by
  simp [l4mem, emptyL4]
theorem l3mem_empty (q : Nat) : l3mem emptyL3 q = false := by
  simp [l3mem, memLevel, emptyL3]
theorem l2mem_empty (q : Nat) : l2mem emptyL2 q = false := by
  simp [l2mem, memLevel, emptyL2]
theorem l1mem_empty (q : Nat) : l1mem emptyRoot q = false := by
  simp [l1mem, memLevel, emptyRoot]
/-- Setting bit `p` in a bitmap adds exactly position `p`. -/
theorem l4mem_update (data : BlockSetLevel4) (p bn mask : Nat) (hbn : bn = p / 8)
    (hm : mask = 2 ^ (p % 8)) (q : Nat) :
    l4mem (updateFn data bn (mask ||| data bn)) q = (decide (q = p) || l4mem data q) := by
  subst hbn hm
  by_cases hq : q / 8 = p / 8
  · by_cases hqp : q = p
    · subst hqp
      simp [l4mem, updateFn_eq, Nat.testBit_or, Nat.testBit_two_pow_self]
    · have hb : ¬ p % 8 = q % 8 := by
        intro he
        exact hqp (by omega)
      simp [l4mem, hq, updateFn_eq, Nat.testBit_or, Nat.testBit_two_pow, hb, hqp]
  · have e : updateFn data (p / 8) (2 ^ (p % 8) ||| data (p / 8)) (q / 8) = data (q / 8) :=
      updateFn_ne _ _ _ _ hq
    have hqp : ¬ q = p := fun he => hq (by rw [he])
    simp [l4mem, e, hqp]
/-- Updating the child at slot `a / w` of a 256-entry array by a child
update that adds exactly position `a % w` adds exactly the value `a`. -/
theorem memLevel_update {α : Type} (memChild : α → Nat → Bool) (w : Nat)
    (child : Nat → Option α) (emptyChild : α) (updChild : α → α) (a i : Nat)
    (hi : i = a / w)
    (hupd : ∀ c q, memChild (updChild c) q = (decide (q = a % w) || memChild c q))
    (hempty : ∀ q, memChild emptyChild q = false) (v : Nat) :
    memLevel memChild w (updateFn child i (some (updChild ((child i).getD emptyChild)))) v
      = (decide (v = a) || memLevel memChild w child v) := by
  subst hi
  by_cases hv : v / w = a / w
  · have hva : (v % w = a % w) ↔ (v = a) := by
      constructor
      · intro h
        calc v = w * (v / w) + v % w := (Nat.div_add_mod v w).symm
        _ = w * (a / w) + a % w := by rw [hv, h]
        _ = a := Nat.div_add_mod a w
      · intro h; rw [h]
    rcases hc : child (a / w) with _ | c
    · simp only [memLevel, hv, hc, Option.getD, updateFn_eq, hupd, hempty, Bool.or_false]
      simp [decide_eq_decide, hva]
    · simp only [memLevel, hv, hc, Option.getD, updateFn_eq, hupd]
      simp [decide_eq_decide, hva]
  · have e : updateFn child (a / w) (some (updChild ((child (a / w)).getD emptyChild))) (v / w)
        = child (v / w) := updateFn_ne _ _ _ _ hv
    have hvne : ¬ v = a := by
      intro h; exact hv (by rw [h])
    simp [memLevel, e, hvne]
/-- Effect of one `blockset_set` call on membership. -/
theorem blockset_get_set (bs : BlockSet) (a v : Nat) :
    blockset_get v (blockset_set bs a) = (decide (v = a) || blockset_get v bs) := by
  have hset : blockset_set bs a = blockset_set (some (bs.getD emptyRoot)) a := by
    cases bs <;> rfl
  have hget : blockset_get v bs = blockset_get v (some (bs.getD emptyRoot)) := by
    cases bs
    · rw [blockset_get_eq_l1mem]
      simp [blockset_get, Option.getD, l1mem_empty]
    · rfl
  rw [hset, hget]
  generalize bs.getD emptyRoot = root
  show blockset_get v (some (updateFn root (splitI1 a) _)) = _
  rw [blockset_get_eq_l1mem, blockset_get_eq_l1mem]
  have h4 : ∀ (d : BlockSetLevel4) q,
      l4mem (updateFn d (splitByteNo a) (splitByteMask a ||| d (splitByteNo a))) q
        = (decide (q = a % 16777216 % 65536 % 256) || l4mem d q) := by
    intro d q
    exact l4mem_update d (a % 16777216 % 65536 % 256) _ _
      (by unfold splitByteNo splitI4; omega)
      (by unfold splitByteMask splitI4; congr 1; omega) q
  have h3 : ∀ (c : BlockSetLevel3) q,
      l3mem (updateFn c (splitI3 a)
        (some (updateFn ((c (splitI3 a)).getD emptyL4) (splitByteNo a)
          (splitByteMask a ||| ((c (splitI3 a)).getD emptyL4) (splitByteNo a))))) q
        = (decide (q = a % 16777216 % 65536) || l3mem c q) := by
    intro c q
    exact memLevel_update l4mem 256 c emptyL4
      (fun d => updateFn d (splitByteNo a) (splitByteMask a ||| d (splitByteNo a)))
      (a % 16777216 % 65536) (splitI3 a) (by unfold splitI3; omega) h4 l4mem_empty q
  have h2 : ∀ (c : BlockSetLevel2) q,
      l2mem (updateFn c (splitI2 a)
        (some (updateFn ((c (splitI2 a)).getD emptyL3) (splitI3 a)
          (some (updateFn ((((c (splitI2 a)).getD emptyL3) (splitI3 a)).getD emptyL4)
            (splitByteNo a)
            (splitByteMask a |||
              ((((c (splitI2 a)).getD emptyL3) (splitI3 a)).getD emptyL4)
                (splitByteNo a))))))) q
        = (decide (q = a % 16777216) || l2mem c q) := by
    intro c q
    exact memLevel_update l3mem 65536 c emptyL3
      (fun c3 => updateFn c3 (splitI3 a)
        (some (updateFn ((c3 (splitI3 a)).getD emptyL4) (splitByteNo a)
          (splitByteMask a ||| ((c3 (splitI3 a)).getD emptyL4) (splitByteNo a)))))
      (a % 16777216) (splitI2 a) (by unfold splitI2; omega) h3 l3mem_empty q
  exact memLevel_update l2mem 16777216 root emptyL2 _ a (splitI1 a) (splitI1_eq_div a)
    h2 l2mem_empty v
/-- Membership after a whole sequence of `blockset_set` calls. -/
theorem blockset_get_foldl (l : List Nat) (bs : BlockSet) (v : Nat) :
    blockset_get v (l.foldl blockset_set bs) = true ↔ v ∈ l ∨ blockset_get v bs = true := by
  induction l generalizing bs with
  | nil => simp
  | cons a t ih =>
    show blockset_get v (t.foldl blockset_set (blockset_set bs a)) = true ↔ _
    rw [ih, blockset_get_set]
    simp [List.mem_cons, or_assoc, eq_comm (a := a) (b := v)]
    tauto
/-- Membership in a set built from scratch. -/
theorem blockset_get_build (l : List Nat) (v : Nat) :
    blockset_get v (blockset_build l) = true ↔ v ∈ l := by
  rw [blockset_build, blockset_get_foldl]
  simp [blockset_get]
/-! ### Correctness of `blockset_next` from clean start states -/
theorem IsLeastFrom_mono (mem : Nat → Bool) (lo' lo bound : Nat) (r : Option Nat)
    (h : IsLeastFrom mem lo bound r) (hlo : lo' ≤ lo)
    (hgap : ∀ u, lo' ≤ u → u < lo → mem u = false) : IsLeastFrom mem lo' bound r := by
  cases r with
  | none =>
    intro u h1 h2
    rcases Nat.lt_or_ge u lo with hu | hu
    · exact hgap u h1 hu
    · exact h u hu h2
  | some v =>
    obtain ⟨hv1, hv2, hv3, hv4⟩ := h
    refine ⟨le_trans hlo hv1, hv2, hv3, fun u h1 h2 => ?_⟩
    rcases Nat.lt_or_ge u lo with hu | hu
    · exact hgap u h1 hu
    · exact hv4 u hu h2
theorem maskShifts_two_pow : ∀ k, k < 8 → maskShifts (2 ^ k) = k := by decide
theorem l4mem_div (data : BlockSetLevel4) (u : Nat) :
    l4mem data u = (data (u / 8)).testBit (u % 8) := rfl
/-- The inner mask loop finds the least set bit of `byteVal` at position
`k` or above (positions 0–7), when started at mask `2^k`. -/
theorem scanMaskAux_spec (v : Nat) :
    ∀ d k fuel, k + d = 8 → d < fuel →
      IsLeastFrom (fun j => v.testBit j) k 8 (scanMaskAux 256 v fuel (2 ^ k)) := by
  intro d
  induction d with
  | zero =>
    intro k fuel hk hf
    obtain ⟨f, rfl⟩ : ∃ f, fuel = f + 1 := ⟨fuel - 1, by omega⟩
    have hk8 : k = 8 := by omega
    subst hk8
    norm_num [scanMaskAux]
    intro u h1 h2
    omega
  | succ d ih =>
    intro k fuel hk hf
    obtain ⟨f, rfl⟩ : ∃ f, fuel = f + 1 := ⟨fuel - 1, by omega⟩
    have hk7 : k ≤ 7 := by omega
    have hmask : 2 ^ k < 256 := by
      calc 2 ^ k ≤ 2 ^ 7 := Nat.pow_le_pow_right (by omega) hk7
      _ < 256 := by norm_num
    simp only [scanMaskAux, if_pos hmask]
    by_cases ht : v.testBit k
    · have hand : 2 ^ k &&& v = 2 ^ k := by
        rw [Nat.two_pow_and, ht]
        simp
      rw [if_pos hand, maskShifts_two_pow k (by omega)]
      exact ⟨le_refl k, by omega, ht, fun u h1 h2 => absurd h1 (by omega)⟩
    · have hand : ¬ (2 ^ k &&& v = 2 ^ k) := by
        rw [Nat.two_pow_and]
        simp only [ht]
        have h0 : (2 : Nat) ^ k ≠ 0 := (Nat.two_pow_pos k).ne'
        simp only [Bool.toNat_false, Nat.mul_zero]
        exact fun h => h0 h.symm
      rw [if_neg hand]
      have hstep : (2 : Nat) ^ k <<< 1 = 2 ^ (k + 1) := by
        rw [Nat.shiftLeft_eq, pow_one, pow_succ]
      rw [hstep]
      refine IsLeastFrom_mono _ k (k + 1) 8 _ (ih (k + 1) f (by omega) (by omega))
        (by omega) (fun u h1 h2 => ?_)
      have hu : u = k := by omega
      subst hu
      simpa using ht
theorem scanMask_spec (v k : Nat) (hk : k ≤ 8) :
    IsLeastFrom (fun j => v.testBit j) k 8 (scanMask 256 v (2 ^ k)) :=
  scanMaskAux_spec v (8 - k) k 256 (by omega) (by omega)
/-- Clean-start correctness of the byte loop (library mask limit): from
byte `b` and mask `2^k` with `k ≤ 7`, provided `k = 0` or byte `b` is
nonzero, the loop finds the least bitmap position at `8*b + k` or
above, and on failure exits with `byte_mask = 1`. -/
theorem scanBytesAux_clean (data : BlockSetLevel4) :
    ∀ fuel b k, fuel + b = 32 → k ≤ 7 → (k = 0 ∨ (b < 32 ∧ data b ≠ 0)) →
      IsLeastFrom (l4mem data) (8 * b + k) 256 (scanBytesAux 256 data fuel b (2 ^ k)).1 ∧
      ((scanBytesAux 256 data fuel b (2 ^ k)).1 = none →
        (scanBytesAux 256 data fuel b (2 ^ k)).2 = 1) := by
  intro fuel
  induction fuel with
  | zero =>
    intro b k hfb hk hcl
    have hb : b = 32 := by omega
    constructor
    · show IsLeastFrom _ _ _ (none : Option Nat)
      intro u h1 h2
      omega
    · intro _
      rcases hcl with h0 | ⟨hb32, _⟩
      · simp [scanBytesAux, h0]
      · omega
  | succ fuel ih =>
    intro b k hfb hk hcl
    by_cases hz : data b = 0
    · have h0 : k = 0 := by
        rcases hcl with h0 | ⟨_, hnz⟩
        · exact h0
        · exact absurd hz hnz
      subst h0
      simp only [scanBytesAux, if_pos hz, pow_zero]
      have hrec := ih (b + 1) 0 (by omega) (by omega) (Or.inl rfl)
      simp only [pow_zero] at hrec
      refine ⟨IsLeastFrom_mono _ _ _ _ _ hrec.1 (by omega) (fun u h1 h2 => ?_), hrec.2⟩
      have hu : u / 8 = b := by omega
      rw [l4mem_div, hu, hz]
      simp
    · simp only [scanBytesAux, if_neg hz]
      rcases hsm : scanMask 256 (data b) (2 ^ k) with _ | bit
      · have hspec := scanMask_spec (data b) k (by omega)
        rw [hsm] at hspec
        have hrec := ih (b + 1) 0 (by omega) (by omega) (Or.inl rfl)
        simp only [pow_zero] at hrec
        refine ⟨IsLeastFrom_mono _ _ _ _ _ hrec.1 (by omega) (fun u h1 h2 => ?_), hrec.2⟩
        have hu : u / 8 = b := by omega
        rw [l4mem_div, hu]
        exact hspec (u % 8) (by omega) (by omega)
      · have hspec := scanMask_spec (data b) k (by omega)
        rw [hsm] at hspec
        obtain ⟨hkb, hb8, hbit, hmin⟩ := hspec
        constructor
        · show IsLeastFrom (l4mem data) (8 * b + k) 256 (some (b * 8 + bit))
          refine ⟨by omega, by omega, ?_, fun u h1 h2 => ?_⟩
          · have h1 : (b * 8 + bit) / 8 = b := by omega
            have h2 : (b * 8 + bit) % 8 = bit := by omega
            rw [l4mem_div, h1, h2]
            exact hbit
          · have hu : u / 8 = b := by omega
            rw [l4mem_div, hu]
            exact hmin (u % 8) (by omega) (by omega)
        · intro hcontra
          exact absurd hcontra (by simp)
theorem div_mod_of_seg {w i u lo : Nat} ( _hw : 0 < w) (h1 : w * i + lo ≤ u)
    (h2 : u < w * (i + 1)) : u / w = i ∧ lo ≤ u % w := by
  have hdiv : u / w = i := by
    refine Nat.div_eq_of_lt_le (by rw [Nat.mul_comm]; omega) (by rw [Nat.mul_comm]; omega)
  have hdm := Nat.div_add_mod u w
  rw [hdiv] at hdm
  exact ⟨hdiv, by omega⟩
theorem memLevel_at {α : Type} (memChild : α → Nat → Bool) (w : Nat) (hw : 0 < w)
    (child : Nat → Option α) (i v : Nat) (hv : v < w) :
    memLevel memChild w child (w * i + v) =
      (match child i with | none => false | some c => memChild c v) := by
  have h1 : (w * i + v) / w = i := by
    rw [Nat.mul_add_div hw, Nat.div_eq_of_lt hv, Nat.add_zero]
  have h2 : (w * i + v) % w = v := by
    rw [Nat.mul_add_mod, Nat.mod_eq_of_lt hv]
  unfold memLevel
  rw [h1, h2]
/-- Clean-start correctness of one 256-entry child-array loop: from a
clean state it finds the least present value at the start position or
above, and on failure exits with the inner loop state at its reset
value. -/
theorem scanLevelAux_clean {α σ : Type} (sub : α → σ → Option Nat × σ) (reset : σ → σ)
    (w : Nat) (hw : 0 < w)
    (memChild : α → Nat → Bool) (σ0 : σ) (startOf : σ → Nat)
    (CleanChild : α → σ → Prop)
    (hsub : ∀ c s, CleanChild c s →
        IsLeastFrom (memChild c) (startOf s) w (sub c s).1 ∧
        ((sub c s).1 = none → reset (sub c s).2 = σ0))
    (hσ0 : ∀ c, CleanChild c σ0)
    (hstart0 : startOf σ0 = 0)
    (hstartle : ∀ c s, CleanChild c s → startOf s ≤ w)
    (child : Nat → Option α) :
    ∀ fuel i s, fuel + i = 256 →
      (s = σ0 ∨ (i < 256 ∧ ∃ c, child i = some c ∧ CleanChild c s)) →
      IsLeastFrom (memLevel memChild w child) (w * i + startOf s) (256 * w)
        (scanLevelAux sub reset w child fuel i s).1 ∧
      ((scanLevelAux sub reset w child fuel i s).1 = none →
        (scanLevelAux sub reset w child fuel i s).2.2 = σ0) := by
  intro fuel
  induction fuel with
  | zero =>
    intro i s hfi hclean
    have hi : i = 256 := by omega
    have hs : s = σ0 := by
      rcases hclean with h | ⟨hlt, _⟩
      · exact h
      · omega
    subst hs hi
    constructor
    · show IsLeastFrom _ _ _ (none : Option Nat)
      intro u h1 h2
      rw [hstart0] at h1
      omega
    · intro _
      rfl
  | succ fuel ih =>
    intro i s hfi hclean
    have hi : i < 256 := by omega
    rcases hchild : child i with _ | c
    · have hs : s = σ0 := by
        rcases hclean with h | ⟨_, c, hc, _⟩
        · exact h
        · rw [hchild] at hc; cases hc
      have hs0 : startOf s = 0 := by rw [hs, hstart0]
      have hms : w * (i + 1) = w * i + w := by ring
      simp only [scanLevelAux, hchild]
      have hrec := ih (i + 1) s (by omega) (Or.inl hs)
      refine ⟨IsLeastFrom_mono _ _ _ _ _ hrec.1 (by omega)
        (fun u h1 h2 => ?_), hrec.2⟩
      rw [hs0] at h1 h2
      obtain ⟨hdiv, _⟩ := div_mod_of_seg hw (by omega : w * i + 0 ≤ u) (by omega)
      unfold memLevel
      rw [hdiv, hchild]
    · have hcc : CleanChild c s := by
        rcases hclean with h | ⟨_, c', hc', hcl⟩
        · subst h; exact hσ0 c
        · rw [hchild] at hc'; injection hc' with he; subst he; exact hcl
      obtain ⟨hsub1, hsub2⟩ := hsub c s hcc
      rcases hres : sub c s with ⟨r, s'⟩
      rw [hres] at hsub1 hsub2
      simp only at hsub1 hsub2
      rcases r with _ | v
      · have hreset : reset s' = σ0 := hsub2 rfl
        have hms : w * (i + 1) = w * i + w := by ring
        have hle := hstartle c s hcc
        simp only [scanLevelAux, hchild, hres]
        have hrec := ih (i + 1) (reset s') (by omega) (Or.inl hreset)
        refine ⟨IsLeastFrom_mono _ _ _ _ _ hrec.1 ?_ (fun u h1 h2 => ?_), hrec.2⟩
        · rw [hreset, hstart0]
          omega
        · rw [hreset, hstart0] at h2
          obtain ⟨hdiv, hmod⟩ := div_mod_of_seg hw h1 (by omega)
          unfold memLevel
          rw [hdiv, hchild]
          exact hsub1 (u % w) hmod (Nat.mod_lt u hw)
      · simp only [scanLevelAux, hchild, hres]
        obtain ⟨hv1, hv2, hv3, hv4⟩ := hsub1
        constructor
        · show IsLeastFrom _ _ _ (some (w * i + v))
          have h255 : w * i ≤ w * 255 := Nat.mul_le_mul_left w (by omega)
          refine ⟨by omega, by omega, ?_, fun u h1 h2 => ?_⟩
          · rw [memLevel_at memChild w hw child i v hv2, hchild]
            exact hv3
          · have hms : w * (i + 1) = w * i + w := by ring
            obtain ⟨hdiv, hmod⟩ := div_mod_of_seg hw h1 (by omega)
            unfold memLevel
            rw [hdiv, hchild]
            have hdm := Nat.div_add_mod u w
            rw [hdiv] at hdm
            exact hv4 (u % w) hmod (by omega)
        · intro hcontra
          simp at hcontra
theorem startOf4_le (data : BlockSetLevel4) (s : Sigma4) (h : CleanBytes data s) :
    startOf4 s ≤ 256 := by
  obtain ⟨k, hk, hm, hcase⟩ := h
  unfold startOf4
  rw [hm, Nat.log2_two_pow]
  rcases hcase with ⟨h0, hb⟩ | ⟨hb, _⟩ <;> omega
theorem cleanBytes_sigma40 (data : BlockSetLevel4) : CleanBytes data sigma40 :=
  ⟨0, by omega, by norm_num [sigma40], Or.inl ⟨rfl, by norm_num [sigma40]⟩⟩
theorem startOf4_sigma40 : startOf4 sigma40 = 0 := by
  unfold startOf4 sigma40
  rw [show (1 : Nat) = 2 ^ 0 by norm_num, Nat.log2_two_pow]
  norm_num
/-- The byte-loop scan, packaged as the `sub` of the `i3` loop. -/
theorem subL4_clean (data : BlockSetLevel4) (s : Sigma4) (h : CleanBytes data s) :
    IsLeastFrom (l4mem data) (startOf4 s) 256 (subL4 256 data s).1 ∧
    ((subL4 256 data s).1 = none →
      (fun t : Sigma4 => ((0 : Nat), t.2)) (subL4 256 data s).2 = sigma40) := by
  obtain ⟨k, hk, hm, hcase⟩ := h
  rcases s with ⟨b, m⟩
  simp only at hm
  subst hm
  have hb32 : b ≤ 32 := by rcases hcase with ⟨_, hb⟩ | ⟨hb, _⟩ <;> omega
  have hbytes := scanBytesAux_clean data (32 - b) b k (by omega) hk
    (by rcases hcase with ⟨h0, _⟩ | ⟨hb, hnz⟩
        · exact Or.inl h0
        · exact Or.inr ⟨hb, hnz⟩)
  have hstart : startOf4 (b, 2 ^ k) = 8 * b + k := by
    unfold startOf4
    rw [Nat.log2_two_pow]
  rcases hsb : scanBytesAux 256 data (32 - b) b (2 ^ k) with ⟨r, m'⟩
  rw [hsb] at hbytes
  simp only at hbytes
  have hsub4 : subL4 256 data (b, 2 ^ k) = (r, (32, m')) := by
    simp only [subL4, scanBytes, hsb]
  rw [hsub4, hstart]
  refine ⟨hbytes.1, fun hnone => ?_⟩
  simp only at hnone
  have := hbytes.2 hnone
  simp only [sigma40, this]
theorem startOf3_le (bs3 : BlockSetLevel3) (s : Nat × Sigma4) (h : CleanL3 bs3 s) :
    startOf3 s ≤ 65536 := by
  rcases s with ⟨i3, s4⟩
  unfold startOf3
  rcases h with ⟨h4, hle⟩ | ⟨hlt, d, _, hcb⟩
  · simp only at h4 hle ⊢
    rw [h4, startOf4_sigma40]
    omega
  · have := startOf4_le d s4 hcb
    simp only at hlt ⊢
    omega
theorem cleanL3_zero (bs3 : BlockSetLevel3) : CleanL3 bs3 (0, sigma40) :=
  Or.inl ⟨rfl, by omega⟩
theorem startOf3_zero : startOf3 (0, sigma40) = 0 := by
  unfold startOf3
  rw [startOf4_sigma40]
  norm_num
/-- The `i3` loop, packaged as the `sub` of the `i2` loop. -/
theorem subL3_clean (bs3 : BlockSetLevel3) (s : Nat × Sigma4) (h : CleanL3 bs3 s) :
    IsLeastFrom (l3mem bs3) (startOf3 s) 65536 (subL3 256 bs3 s).1 ∧
    ((subL3 256 bs3 s).1 = none →
      (fun t : Nat × Sigma4 => ((0 : Nat), t.2)) (subL3 256 bs3 s).2 = (0, sigma40)) := by
  rcases s with ⟨i3, s4⟩
  have hi3 : i3 ≤ 256 := by
    rcases h with ⟨_, hle⟩ | ⟨hlt, _⟩ <;> omega
  have hgen := scanLevelAux_clean (subL4 256) (fun t => (0, t.2)) 256 (by norm_num)
    l4mem sigma40 startOf4 CleanBytes subL4_clean cleanBytes_sigma40 startOf4_sigma40
    startOf4_le bs3 (256 - i3) i3 s4 (by omega)
    (by rcases h with ⟨h4, _⟩ | ⟨hlt, d, hd, hcb⟩
        · exact Or.inl h4
        · exact Or.inr ⟨hlt, d, hd, hcb⟩)
  have hwrap : subL3 256 bs3 (i3, s4) =
      scanLevelAux (subL4 256) (fun t => (0, t.2)) 256 bs3 (256 - i3) i3 s4 := rfl
  rw [hwrap]
  have hmem : memLevel l4mem 256 bs3 = l3mem bs3 := rfl
  rw [hmem] at hgen
  have hw : (256 : Nat) * 256 = 65536 := by norm_num
  rw [hw] at hgen
  refine ⟨hgen.1, fun hnone => ?_⟩
  have := hgen.2 hnone
  simp only [this]
theorem startOf2_le (bs2 : BlockSetLevel2) (s : Nat × Nat × Sigma4) (h : CleanL2 bs2 s) :
    startOf2 s ≤ 16777216 := by
  rcases s with ⟨i2, s3⟩
  unfold startOf2
  rcases h with ⟨h3, hle⟩ | ⟨hlt, c, _, hcl⟩
  · simp only at h3 hle ⊢
    rw [h3, startOf3_zero]
    omega
  · have := startOf3_le c s3 hcl
    simp only at hlt ⊢
    omega
theorem cleanL2_zero (bs2 : BlockSetLevel2) : CleanL2 bs2 (0, 0, sigma40) :=
  Or.inl ⟨rfl, by omega⟩
theorem startOf2_zero : startOf2 (0, 0, sigma40) = 0 := by
  unfold startOf2
  rw [startOf3_zero]
  norm_num
/-- The `i2` loop, packaged as the `sub` of the `i1` loop. -/
theorem subL2_clean (bs2 : BlockSetLevel2) (s : Nat × Nat × Sigma4) (h : CleanL2 bs2 s) :
    IsLeastFrom (l2mem bs2) (startOf2 s) 16777216 (subL2 256 bs2 s).1 ∧
    ((subL2 256 bs2 s).1 = none →
      (fun t : Nat × Nat × Sigma4 => ((0 : Nat), t.2)) (subL2 256 bs2 s).2
        = (0, 0, sigma40)) := by
  rcases s with ⟨i2, s3⟩
  have hi2 : i2 ≤ 256 := by
    rcases h with ⟨_, hle⟩ | ⟨hlt, _⟩ <;> omega
  have hgen := scanLevelAux_clean (subL3 256) (fun t => (0, t.2)) 65536 (by norm_num)
    l3mem (0, sigma40) startOf3 CleanL3 subL3_clean cleanL3_zero startOf3_zero
    startOf3_le bs2 (256 - i2) i2 s3 (by omega)
    (by rcases h with ⟨h3, _⟩ | ⟨hlt, c, hc, hcl⟩
        · exact Or.inl h3
        · exact Or.inr ⟨hlt, c, hc, hcl⟩)
  have hwrap : subL2 256 bs2 (i2, s3) =
      scanLevelAux (subL3 256) (fun t => (0, t.2)) 65536 bs2 (256 - i2) i2 s3 := rfl
  rw [hwrap]
  have hmem : memLevel l3mem 65536 bs2 = l2mem bs2 := rfl
  rw [hmem] at hgen
  have hw : (256 : Nat) * 65536 = 16777216 := by norm_num
  rw [hw] at hgen
  refine ⟨hgen.1, fun hnone => ?_⟩
  have := hgen.2 hnone
  simp only [this]
/-- The whole four-level scan from a clean start state. -/
theorem scanL2s_clean (root : BlockSetData) (i1 : Nat) (s : Nat × Nat × Sigma4)
    (h : CleanL1 root i1 s) :
    IsLeastFrom (l1mem root) (16777216 * i1 + startOf2 s) 4294967296
      (scanL2s 256 root i1 s).1 := by
  have hi1 : i1 ≤ 256 := by
    rcases h with ⟨_, hle⟩ | ⟨hlt, _⟩ <;> omega
  have hgen := scanLevelAux_clean (subL2 256) (fun t => (0, t.2)) 16777216 (by norm_num)
    l2mem (0, 0, sigma40) startOf2 CleanL2 subL2_clean cleanL2_zero startOf2_zero
    startOf2_le root (256 - i1) i1 s (by omega)
    (by rcases h with ⟨h2, _⟩ | ⟨hlt, c, hc, hcl⟩
        · exact Or.inl h2
        · exact Or.inr ⟨hlt, c, hc, hcl⟩)
  have hwrap : scanL2s 256 root i1 s =
      scanLevelAux (subL2 256) (fun t => (0, t.2)) 16777216 root (256 - i1) i1 s := rfl
  rw [hwrap]
  have hmem : memLevel l2mem 16777216 root = l1mem root := rfl
  rw [hmem] at hgen
  have hw : (256 : Nat) * 16777216 = 4294967296 := by norm_num
  rw [hw] at hgen
  exact hgen.1
theorem l1mem_extract (root : BlockSetData) (v : Nat) (h : l1mem root v = true) :
    ∃ c, root (v / 16777216) = some c ∧ l2mem c (v % 16777216) = true := by
  unfold l1mem memLevel at h
  rcases hc : root (v / 16777216) with _ | c
  · rw [hc] at h; cases h
  · rw [hc] at h; exact ⟨c, rfl, h⟩
theorem l2mem_extract (c : BlockSetLevel2) (v : Nat) (h : l2mem c v = true) :
    ∃ d, c (v / 65536) = some d ∧ l3mem d (v % 65536) = true := by
  unfold l2mem memLevel at h
  rcases hc : c (v / 65536) with _ | d
  · rw [hc] at h; cases h
  · rw [hc] at h; exact ⟨d, rfl, h⟩
theorem l3mem_extract (d : BlockSetLevel3) (v : Nat) (h : l3mem d v = true) :
    ∃ e, d (v / 256) = some e ∧ l4mem e (v % 256) = true := by
  unfold l3mem memLevel at h
  rcases hc : d (v / 256) with _ | e
  · rw [hc] at h; cases h
  · rw [hc] at h; exact ⟨e, rfl, h⟩
theorem l4mem_byte_ne (data : BlockSetLevel4) (p : Nat) (h : l4mem data p = true) :
    data (p / 8) ≠ 0 := by
  intro h0
  rw [l4mem_div, h0] at h
  simp [Nat.zero_testBit] at h
/-- A start state just past a member is clean: every stale index the
scan may carry points into the radix path of the member, which is
allocated. -/
theorem clean_of_member (root : BlockSetData) (m : Nat) (hm : m < 4294967296)
    (hmem : l1mem root m = true) :
    CleanL1 root (splitI1 (m + 1))
      (splitI2 (m + 1), splitI3 (m + 1), splitByteNo (m + 1), splitByteMask (m + 1)) := by
  obtain ⟨c1, hc1, h2⟩ := l1mem_extract root m hmem
  obtain ⟨c2, hc2, h3⟩ := l2mem_extract c1 (m % 16777216) h2
  obtain ⟨c3, hc3, h4⟩ := l3mem_extract c2 (m % 16777216 % 65536) h3
  have hc1' : root (splitI1 m) = some c1 := by rw [splitI1_eq_div]; exact hc1
  have hc2' : c1 (splitI2 m) = some c2 := by rw [← mod24_div16]; exact hc2
  have hc3' : c2 (splitI3 m) = some c3 := by
    rw [← mod16_div8, ← mod24_mod16]
    exact hc3
  have h4' : l4mem c3 (splitI4 m) = true := by
    rw [show splitI4 m = m % 16777216 % 65536 % 256 by unfold splitI4; omega]
    exact h4
  have hne : c3 (splitByteNo m) ≠ 0 := l4mem_byte_ne c3 (splitI4 m) h4'
  by_cases hD : m % 16777216 = 16777215
  · -- carry into i1: everything below resets
    refine Or.inl ⟨?_, by show splitI1 (m + 1) ≤ 256; unfold splitI1; omega⟩
    have e2 : splitI2 (m + 1) = 0 := by unfold splitI2; omega
    have e3 : splitI3 (m + 1) = 0 := by unfold splitI3; omega
    have eb : splitByteNo (m + 1) = 0 := by unfold splitByteNo splitI4; omega
    have em : splitByteMask (m + 1) = 1 := by
      unfold splitByteMask splitI4
      rw [show (m + 1) % 256 % 8 = 0 by omega]
      norm_num
    show (splitI2 (m + 1), splitI3 (m + 1), splitByteNo (m + 1), splitByteMask (m + 1))
      = (0, 0, sigma40)
    rw [e2, e3, eb, em]
    rfl
  · refine Or.inr ⟨by show splitI1 (m + 1) < 256; unfold splitI1; omega, c1, ?_, ?_⟩
    · show root (splitI1 (m + 1)) = some c1
      rw [show splitI1 (m + 1) = splitI1 m by unfold splitI1; omega]
      exact hc1'
    · by_cases hC : m % 65536 = 65535
      · -- carry into i2
        refine Or.inl ⟨?_, by show splitI2 (m + 1) ≤ 256; unfold splitI2; omega⟩
        have e3 : splitI3 (m + 1) = 0 := by unfold splitI3; omega
        have eb : splitByteNo (m + 1) = 0 := by unfold splitByteNo splitI4; omega
        have em : splitByteMask (m + 1) = 1 := by
          unfold splitByteMask splitI4
          rw [show (m + 1) % 256 % 8 = 0 by omega]
          norm_num
        show (splitI3 (m + 1), splitByteNo (m + 1), splitByteMask (m + 1)) = (0, sigma40)
        rw [e3, eb, em]
        rfl
      · refine Or.inr ⟨by show splitI2 (m + 1) < 256; unfold splitI2; omega, c2, ?_, ?_⟩
        · show c1 (splitI2 (m + 1)) = some c2
          rw [show splitI2 (m + 1) = splitI2 m by unfold splitI2; omega]
          exact hc2'
        · by_cases hB : m % 256 = 255
          · -- carry into i3
            refine Or.inl ⟨?_, by show splitI3 (m + 1) ≤ 256; unfold splitI3; omega⟩
            have eb : splitByteNo (m + 1) = 0 := by unfold splitByteNo splitI4; omega
            have em : splitByteMask (m + 1) = 1 := by
              unfold splitByteMask splitI4
              rw [show (m + 1) % 256 % 8 = 0 by omega]
              norm_num
            show (splitByteNo (m + 1), splitByteMask (m + 1)) = sigma40
            rw [eb, em]
            rfl
          · refine Or.inr ⟨by show splitI3 (m + 1) < 256; unfold splitI3; omega, c3, ?_, ?_⟩
            · show c2 (splitI3 (m + 1)) = some c3
              rw [show splitI3 (m + 1) = splitI3 m by unfold splitI3; omega]
              exact hc3'
            · -- same bitmap: clean byte state
              by_cases hA : m % 8 = 7
              · -- carry into the next byte: mask resets to 1
                refine ⟨0, by omega, ?_,
                  Or.inl ⟨rfl, by show splitByteNo (m + 1) ≤ 32
                                  unfold splitByteNo splitI4; omega⟩⟩
                show splitByteMask (m + 1) = 2 ^ 0
                unfold splitByteMask splitI4
                rw [show (m + 1) % 256 % 8 = 0 by omega]
              · -- same byte, next bit: the byte is allocated and nonzero
                refine ⟨splitI4 (m + 1) % 8, by unfold splitI4; omega, rfl,
                  Or.inr ⟨by show splitByteNo (m + 1) < 32
                             unfold splitByteNo splitI4; omega, ?_⟩⟩
                show c3 (splitByteNo (m + 1)) ≠ 0
                rw [show splitByteNo (m + 1) = splitByteNo m by
                  unfold splitByteNo splitI4; omega]
                exact hne
/-- `blockset_next` on a non-NULL set, as the four-level scan of the
incremented input. -/
theorem blockset_next_eq_scan (root : BlockSetData) (x : Nat) (hx : x ≠ InvalidBlockNumber) :
    blockset_next (some root) x =
      (match (scanL2s 256 root (splitI1 (x + 1))
          (splitI2 (x + 1), splitI3 (x + 1), splitByteNo (x + 1),
            splitByteMask (x + 1))).1 with
       | some v => v
       | none => InvalidBlockNumber) := by
  simp only [blockset_next, blockset_next_impl, if_neg hx]
theorem blockset_next_eq_scan_sentinel (root : BlockSetData) :
    blockset_next (some root) InvalidBlockNumber =
      (match (scanL2s 256 root (splitI1 0)
          (splitI2 0, splitI3 0, splitByteNo 0, splitByteMask 0)).1 with
       | some v => v
       | none => InvalidBlockNumber) := by
  simp [blockset_next, blockset_next_impl]
/-- From a clean start the library scan returns exactly the least member
of the set at position `b` or above. -/
theorem blockset_next_impl_clean (root : BlockSetData) (b : Nat)
    (hclean : CleanL1 root (splitI1 b)
      (splitI2 b, splitI3 b, splitByteNo b, splitByteMask b)) :
    IsLeastFrom (l1mem root) b 4294967296
      (scanL2s 256 root (splitI1 b)
        (splitI2 b, splitI3 b, splitByteNo b, splitByteMask b)).1 := by
  have h := scanL2s_clean root (splitI1 b) _ hclean
  have hstart : 16777216 * splitI1 b +
      startOf2 (splitI2 b, splitI3 b, splitByteNo b, splitByteMask b) = b := by
    show 16777216 * splitI1 b +
      (65536 * splitI2 b + (256 * splitI3 b +
        (8 * splitByteNo b + Nat.log2 (splitByteMask b)))) = b
    rw [show splitByteMask b = 2 ^ (splitI4 b % 8) from rfl, Nat.log2_two_pow]
    have := split_reconstruct b
    omega
  rw [hstart] at h
  exact h
/-- The member that `blockset_next` returns from the sentinel is the
least member of the set (`none` when the set is empty), provided
`InvalidBlockNumber` itself is not a member. -/
theorem blockset_next_sentinel_spec (root : BlockSetData)
    (hInv : l1mem root 4294967295 = false) :
    IsLeastFrom (l1mem root) 0 4294967296
      (if blockset_next (some root) InvalidBlockNumber = InvalidBlockNumber then none
       else some (blockset_next (some root) InvalidBlockNumber)) := by
  have hclean : CleanL1 root (splitI1 0)
      (splitI2 0, splitI3 0, splitByteNo 0, splitByteMask 0) :=
    Or.inl ⟨rfl, by norm_num [splitI1]⟩
  have h := blockset_next_impl_clean root 0 hclean
  rw [blockset_next_eq_scan_sentinel root]
  rcases hres : (scanL2s 256 root (splitI1 0)
      (splitI2 0, splitI3 0, splitByteNo 0, splitByteMask 0)).1 with _ | v
  · rw [hres] at h
    simp only [if_pos rfl]
    exact h
  · rw [hres] at h
    obtain ⟨h1, h2, h3, h4⟩ := h
    have hv : v ≠ InvalidBlockNumber := by
      intro he
      rw [he] at h3
      rw [show InvalidBlockNumber = 4294967295 from rfl] at h3
      rw [h3] at hInv
      cases hInv
    simp only [if_neg hv]
    exact ⟨h1, h2, h3, h4⟩
/-- The member that `blockset_next` returns from a member `m` is the
least member strictly above `m` (`none` when there is none), provided
`InvalidBlockNumber` itself is not a member. -/
theorem blockset_next_mem_spec (root : BlockSetData) (m : Nat) (hm : m < 4294967295)
    (hmem : l1mem root m = true) (hInv : l1mem root 4294967295 = false) :
    IsLeastFrom (l1mem root) (m + 1) 4294967296
      (if blockset_next (some root) m = InvalidBlockNumber then none
       else some (blockset_next (some root) m)) := by
  have hclean := clean_of_member root m (by omega) hmem
  have h := blockset_next_impl_clean root (m + 1) hclean
  have hne : m ≠ InvalidBlockNumber := by
    rw [show InvalidBlockNumber = 4294967295 from rfl]
    omega
  rw [blockset_next_eq_scan root m hne]
  rcases hres : (scanL2s 256 root (splitI1 (m + 1))
      (splitI2 (m + 1), splitI3 (m + 1), splitByteNo (m + 1),
        splitByteMask (m + 1))).1 with _ | v
  · rw [hres] at h
    simp only [if_pos rfl]
    exact h
  · rw [hres] at h
    obtain ⟨h1, h2, h3, h4⟩ := h
    have hv : v ≠ InvalidBlockNumber := by
      intro he
      rw [he] at h3
      rw [show InvalidBlockNumber = 4294967295 from rfl] at h3
      rw [h3] at hInv
      cases hInv
    simp only [if_neg hv]
    exact ⟨h1, h2, h3, h4⟩
/-- Soundness and completeness of repeated `blockset_next` calls, by
induction on the fuel.  `x` is the current position: the sentinel, or a
member below `InvalidBlockNumber`. -/
theorem blockset_enum_strong (root : BlockSetData)
    (hInv : l1mem root 4294967295 = false) :
    ∀ fuel x, (x = InvalidBlockNumber ∨ (x < 4294967295 ∧ l1mem root x = true)) →
      (∀ v ∈ blockset_enum (some root) fuel x,
        l1mem root v = true ∧ v < 4294967295 ∧ (x = InvalidBlockNumber ∨ x < v)) ∧
      List.Chain' (· < ·) (blockset_enum (some root) fuel x) ∧
      (∀ v, l1mem root v = true → v < 4294967295 → (x = InvalidBlockNumber ∨ x < v) →
        (v ∈ blockset_enum (some root) fuel x ∨
          (blockset_enum (some root) fuel x).length = fuel)) ∧
      ((blockset_enum (some root) fuel x).length < fuel →
        blockset_next (some root) ((blockset_enum (some root) fuel x).getLastD x)
          = InvalidBlockNumber) := by
  intro fuel
  induction fuel with
  | zero =>
    intro x hx
    refine ⟨by simp [blockset_enum], by simp [blockset_enum], ?_, by simp [blockset_enum]⟩
    intro v _ _ _
    right
    simp [blockset_enum]
  | succ fuel ih =>
    intro x hx
    have hspec : IsLeastFrom (l1mem root)
        (if x = InvalidBlockNumber then 0 else x + 1) 4294967296
        (if blockset_next (some root) x = InvalidBlockNumber then none
         else some (blockset_next (some root) x)) := by
      rcases hx with h | ⟨h1, h2⟩
      · subst h
        simpa using blockset_next_sentinel_spec root hInv
      · have hne : ¬ (x = InvalidBlockNumber) := by
          rw [show InvalidBlockNumber = 4294967295 from rfl]
          omega

        simpa [hne] using blockset_next_mem_spec root x h1 h2 hInv
    by_cases hnx : blockset_next (some root) x = InvalidBlockNumber
    · have hE : blockset_enum (some root) (fuel + 1) x = [] := by
        simp [blockset_enum, hnx]
      rw [if_pos hnx] at hspec
      refine ⟨by simp [hE], by simp [hE], ?_, ?_⟩
      · intro v hv1 hv2 hv3
        have hlo : (if x = InvalidBlockNumber then 0 else x + 1) ≤ v := by
          rcases hv3 with h | h
          · simp [h]
          · have : ¬ (x = InvalidBlockNumber) := by
              rw [show InvalidBlockNumber = 4294967295 from rfl]
              omega
            simp [this]
            omega
        have := hspec v hlo (by omega)
        rw [hv1] at this
        cases this
      · intro _
        rw [hE]
        exact hnx
    · have hE : blockset_enum (some root) (fuel + 1) x =
          blockset_next (some root) x :: blockset_enum (some root) fuel
            (blockset_next (some root) x) := by
        simp [blockset_enum, hnx]
      rw [if_neg hnx] at hspec
      obtain ⟨hy1, hy2, hy3, hy4⟩ := hspec
      have hy5 : blockset_next (some root) x < 4294967295 := by
        have : blockset_next (some root) x ≠ 4294967295 := by
          intro he
          rw [he] at hy3
          rw [hy3] at hInv
          cases hInv
        omega
      obtain ⟨ihA, ihChain, ihB, ihD⟩ :=
        ih (blockset_next (some root) x) (Or.inr ⟨hy5, hy3⟩)
      have hxlt : ∀ v, blockset_next (some root) x ≤ v →
          (x = InvalidBlockNumber ∨ x < v) := by
        intro v hv
        by_cases hs : x = InvalidBlockNumber
        · exact Or.inl hs
        · right
          rw [if_neg hs] at hy1
          omega
      refine ⟨?_, ?_, ?_, ?_⟩
      · rw [hE]
        intro v hv
        rcases List.mem_cons.mp hv with h | h
        · subst h
          exact ⟨hy3, hy5, hxlt _ (le_refl _)⟩
        · obtain ⟨hm1, hm2, hm3⟩ := ihA v h
          rcases hm3 with hbad | hlt
          · rw [hbad] at hy5
            exact absurd hy5 (by rw [show InvalidBlockNumber = 4294967295 from rfl]; omega)
          · exact ⟨hm1, hm2, hxlt _ (by omega)⟩
      · rw [hE, List.chain'_cons']
        refine ⟨?_, ihChain⟩
        intro y hy
        have hmem : y ∈ blockset_enum (some root) fuel (blockset_next (some root) x) :=
          List.mem_of_mem_head? hy
        obtain ⟨_, _, hm3⟩ := ihA y hmem
        rcases hm3 with hbad | hlt
        · rw [hbad] at hy5
          exact absurd hy5 (by rw [show InvalidBlockNumber = 4294967295 from rfl]; omega)
        · exact hlt
      · intro v hv1 hv2 hv3
        have hlo : (if x = InvalidBlockNumber then 0 else x + 1) ≤ v := by
          rcases hv3 with h | h
          · simp [h]
          · have : ¬ (x = InvalidBlockNumber) := by
              rw [show InvalidBlockNumber = 4294967295 from rfl]
              omega
            simp [this]
            omega
        rcases Nat.lt_trichotomy v (blockset_next (some root) x) with hlt | heq | hgt
        · have := hy4 v hlo hlt
          rw [hv1] at this
          cases this
        · left
          rw [hE, heq]
          exact List.mem_cons_self _ _
        · rcases ihB v hv1 hv2 (Or.inr hgt) with h | h
          · left
            rw [hE]
            exact List.mem_cons_of_mem _ h
          · right
            rw [hE]
            simpa using h
      · intro hlen
        rw [hE] at hlen ⊢
        rw [List.getLastD_cons]
        exact ihD (by simpa using hlen)
theorem foldl_set_some (l : List Nat) (root0 : BlockSetData) :
    ∃ root, l.foldl blockset_set (some root0) = some root := by
  induction l generalizing root0 with
  | nil => exact ⟨root0, rfl⟩
  | cons a t ih =>
    show ∃ root, t.foldl blockset_set (blockset_set (some root0) a) = some root
    rcases hset : blockset_set (some root0) a with _ | r
    · exact absurd hset (by simp [blockset_set])
    · exact ih r
/-- C5: for every finite set of valid block numbers inserted by
`blockset_set` calls, starting from the sentinel `InvalidBlockNumber`
and repeatedly calling the library `blockset_next` with the previously
returned value enumerates exactly the inserted members, each exactly
once (the enumeration is strictly ascending), and then returns the
sentinel. -/
theorem C5_blockset_enumeration (l : List Nat) (hl : ∀ m ∈ l, m < 4294967295) :
    (∀ v, v ∈ blockset_enum (blockset_build l) (l.length + 1) InvalidBlockNumber ↔ v ∈ l) ∧
    List.Chain' (· < ·)
      (blockset_enum (blockset_build l) (l.length + 1) InvalidBlockNumber) ∧
    blockset_next (blockset_build l)
      ((blockset_enum (blockset_build l) (l.length + 1) InvalidBlockNumber).getLastD
        InvalidBlockNumber) = InvalidBlockNumber := by
  rcases l with _ | ⟨a, t⟩
  · refine ⟨?_, ?_, ?_⟩ <;>
      simp [blockset_build, blockset_enum, blockset_next, blockset_next_impl]
  · obtain ⟨root, hroot⟩ := foldl_set_some t ((blockset_set none a).getD emptyRoot)
    have hroot' : blockset_build (a :: t) = some root := by
      show (a :: t).foldl blockset_set none = some root
      show t.foldl blockset_set (blockset_set none a) = some root
      rw [show blockset_set none a = some ((blockset_set none a).getD emptyRoot) by
        rcases h : blockset_set none a with _ | r
        · exact absurd h (by simp [blockset_set])
        · rfl]
      exact hroot
    have hmem_iff : ∀ v, l1mem root v = true ↔ v ∈ a :: t := by
      intro v
      rw [← blockset_get_eq_l1mem]
      rw [← hroot']
      exact blockset_get_build (a :: t) v
    have hInv : l1mem root 4294967295 = false := by
      rcases hb : l1mem root 4294967295 with _ | _
      · rfl
      · have := hl 4294967295 ((hmem_iff _).mp hb)
        omega
    obtain ⟨hA, hChain, hB, hD⟩ :=
      blockset_enum_strong root hInv ((a :: t).length + 1) InvalidBlockNumber (Or.inl rfl)
    rw [hroot']
    have hnodup : (blockset_enum (some root) ((a :: t).length + 1)
        InvalidBlockNumber).Nodup :=
      (List.chain'_iff_pairwise.mp hChain).imp Nat.ne_of_lt
    have hsub : ∀ v ∈ blockset_enum (some root) ((a :: t).length + 1) InvalidBlockNumber,
        v ∈ a :: t := fun v hv => (hmem_iff v).mp (hA v hv).1
    have hlen : (blockset_enum (some root) ((a :: t).length + 1)
        InvalidBlockNumber).length ≤ (a :: t).length := by
      have h1 := List.toFinset_card_of_nodup hnodup
      have h2 : (blockset_enum (some root) ((a :: t).length + 1)
          InvalidBlockNumber).toFinset ⊆ (a :: t).toFinset := by
        intro v hv
        rw [List.mem_toFinset] at hv ⊢
        exact hsub v hv
      calc (blockset_enum (some root) ((a :: t).length + 1) InvalidBlockNumber).length
          = _ := h1.symm
      _ ≤ (a :: t).toFinset.card := Finset.card_le_card h2
      _ ≤ (a :: t).length := List.toFinset_card_le (a :: t)
    refine ⟨fun v => ⟨hsub v, fun hvl => ?_⟩, hChain, hD (by omega)⟩
    rcases hB v ((hmem_iff v).mpr hvl) (hl v hvl) (Or.inl rfl) with h | h
    · exact h
    · omega
theorem C5_blockset_enumeration_witness :
    (∀ m ∈ [300, 5, 3], m < 4294967295) ∧
    ((∀ v, v ∈ blockset_enum (blockset_build [300, 5, 3]) 4 InvalidBlockNumber ↔
        v ∈ [300, 5, 3]) ∧
      List.Chain' (· < ·) (blockset_enum (blockset_build [300, 5, 3]) 4 InvalidBlockNumber) ∧
      blockset_next (blockset_build [300, 5, 3])
        ((blockset_enum (blockset_build [300, 5, 3]) 4 InvalidBlockNumber).getLastD
          InvalidBlockNumber) = InvalidBlockNumber) :=
  ⟨by decide, C5_blockset_enumeration [300, 5, 3] (by decide)⟩
/-! ### Agreement of the two `blockset_next` copies on bit-7-free sets

The embedded copy scans a byte with `while (byte_mask <= 0x70)` and so
never tests bit 7; on a set none of whose bitmap bytes have bit 7 set
(no member ≡ 7 mod 8), the missing test can never hit, and the two
copies compute the same function. -/
/-- The two mask-loop limits agree on a byte without bit 7, for any
single-bit mask. -/
theorem scanMaskAux_agree (v : Nat) (h7 : v.testBit 7 = false) :
    ∀ d k f1 f2, k + d = 9 → d < f1 → d < f2 →
      scanMaskAux 256 v f1 (2 ^ k) = scanMaskAux 113 v f2 (2 ^ k) := by
  intro d
  induction d with
  | zero =>
    intro k f1 f2 hk h1 h2
    obtain ⟨g1, rfl⟩ : ∃ g, f1 = g + 1 := ⟨f1 - 1, by omega⟩
    obtain ⟨g2, rfl⟩ : ∃ g, f2 = g + 1 := ⟨f2 - 1, by omega⟩
    have hk9 : k = 9 := by omega
    subst hk9
    norm_num [scanMaskAux]
  | succ d ih =>
    intro k f1 f2 hk h1 h2
    obtain ⟨g1, rfl⟩ : ∃ g, f1 = g + 1 := ⟨f1 - 1, by omega⟩
    obtain ⟨g2, rfl⟩ : ∃ g, f2 = g + 1 := ⟨f2 - 1, by omega⟩
    by_cases hk7 : k = 7
    · subst hk7
      have hand : ¬ ((2 : Nat) ^ 7 &&& v = 2 ^ 7) := by
        rw [Nat.two_pow_and, h7]
        norm_num
      have hstep : (2 : Nat) ^ 7 <<< 1 = 2 ^ 8 := by
        norm_num [Nat.shiftLeft_eq]
      simp only [scanMaskAux]
      rw [if_pos (by norm_num : (2 : Nat) ^ 7 < 256), if_neg hand, hstep,
        if_neg (by norm_num : ¬ ((2 : Nat) ^ 7 < 113))]
      obtain ⟨g1', rfl⟩ : ∃ g, g1 = g + 1 := ⟨g1 - 1, by omega⟩
      simp only [scanMaskAux]
      rw [if_neg (by norm_num : ¬ ((2 : Nat) ^ 8 < 256))]
    · by_cases hk8 : 8 ≤ k
      · have hge : (256 : Nat) ≤ 2 ^ k := by
          calc (256 : Nat) = 2 ^ 8 := by norm_num
          _ ≤ 2 ^ k := Nat.pow_le_pow_right (by omega) hk8
        simp only [scanMaskAux]
        rw [if_neg (by omega), if_neg (by omega)]
      · -- k ≤ 6: the two limits agree on the test
        have hlt113 : (2 : Nat) ^ k < 113 := by
          calc (2 : Nat) ^ k ≤ 2 ^ 6 := Nat.pow_le_pow_right (by omega) (by omega)
          _ < 113 := by norm_num
        have hlt256 : (2 : Nat) ^ k < 256 := by omega
        simp only [scanMaskAux]
        rw [if_pos hlt256, if_pos hlt113]
        by_cases hand : (2 : Nat) ^ k &&& v = 2 ^ k
        · rw [if_pos hand, if_pos hand]
        · rw [if_neg hand, if_neg hand]
          have hstep : (2 : Nat) ^ k <<< 1 = 2 ^ (k + 1) := by
            rw [Nat.shiftLeft_eq, pow_one, pow_succ]
          rw [hstep]
          exact ih (k + 1) g1 g2 (by omega) (by omega) (by omega)
theorem scanMask_agree (v k : Nat) (h7 : v.testBit 7 = false) (hk : k ≤ 8) :
    scanMask 256 v (2 ^ k) = scanMask 113 v (2 ^ k) :=
  scanMaskAux_agree v h7 (9 - k) k 256 113 (by omega) (by omega) (by omega)
/-- The two byte loops agree on a bitmap without bit 7, and the exit
mask stays a single bit at position at most 7. -/
theorem scanBytesAux_agree (data : BlockSetLevel4) (h7 : NoBit7L4 data) :
    ∀ fuel b k, k ≤ 7 →
      scanBytesAux 256 data fuel b (2 ^ k) = scanBytesAux 113 data fuel b (2 ^ k) ∧
      ((scanBytesAux 256 data fuel b (2 ^ k)).2 = 2 ^ k ∨
        (scanBytesAux 256 data fuel b (2 ^ k)).2 = 1) := by
  intro fuel
  induction fuel with
  | zero =>
    intro b k hk
    exact ⟨rfl, Or.inl rfl⟩
  | succ fuel ih =>
    intro b k hk
    by_cases hz : data b = 0
    · simp only [scanBytesAux, if_pos hz]
      exact ih (b + 1) k hk
    · simp only [scanBytesAux, if_neg hz]
      rw [← scanMask_agree (data b) k (h7 b) (by omega)]
      rcases hsm : scanMask 256 (data b) (2 ^ k) with _ | bit
      · have hrec := ih (b + 1) 0 (by omega)
        simp only [pow_zero] at hrec
        refine ⟨hrec.1, ?_⟩
        rcases hrec.2 with h | h
        · rw [h]
          right
          norm_num
        · rw [h]
          right
          rfl
      · exact ⟨rfl, Or.inl rfl⟩
/-- Pointwise agreement of the `sub` scans lifts to agreement of a
whole 256-entry loop, along an invariant `P` on the threaded state. -/
theorem scanLevelAux_congr {α σ : Type} (sub₁ sub₂ : α → σ → Option Nat × σ)
    (reset : σ → σ) (w : Nat) (child : Nat → Option α)
    (Q : α → Prop) (P : σ → Prop)
    (hchild : ∀ i c, child i = some c → Q c)
    (hagree : ∀ c s, Q c → P s → sub₁ c s = sub₂ c s)
    (hpres : ∀ c s, Q c → P s → (sub₁ c s).1 = none → P (reset (sub₁ c s).2)) :
    ∀ fuel i s, P s →
      scanLevelAux sub₁ reset w child fuel i s = scanLevelAux sub₂ reset w child fuel i s := by
  intro fuel
  induction fuel with
  | zero =>
    intro i s _
    rfl
  | succ fuel ih =>
    intro i s hP
    rcases hc : child i with _ | c
    · simp only [scanLevelAux, hc]
      exact ih (i + 1) s hP
    · have hQ := hchild i c hc
      simp only [scanLevelAux, hc, ← hagree c s hQ hP]
      rcases hres : sub₁ c s with ⟨r, s'⟩
      rcases r with _ | v
      · have hP' : P (reset s') := by
          have := hpres c s hQ hP (by rw [hres])
          rw [hres] at this
          exact this
        exact ih (i + 1) (reset s') hP'
      · rfl
/-- The threaded state stays in `P` when a 256-entry loop exits without
a find. -/
theorem scanLevelAux_inv {α σ : Type} (sub : α → σ → Option Nat × σ)
    (reset : σ → σ) (w : Nat) (child : Nat → Option α)
    (Q : α → Prop) (P : σ → Prop)
    (hchild : ∀ i c, child i = some c → Q c)
    (hpres : ∀ c s, Q c → P s → (sub c s).1 = none → P (reset (sub c s).2)) :
    ∀ fuel i s, P s →
      (scanLevelAux sub reset w child fuel i s).1 = none →
      P (scanLevelAux sub reset w child fuel i s).2.2 := by
  intro fuel
  induction fuel with
  | zero =>
    intro i s hP _
    exact hP
  | succ fuel ih =>
    intro i s hP
    rcases hc : child i with _ | c
    · simp only [scanLevelAux, hc]
      exact ih (i + 1) s hP
    · have hQ := hchild i c hc
      simp only [scanLevelAux, hc]
      rcases hres : sub c s with ⟨r, s'⟩
      rcases r with _ | v
      · have hP' : P (reset s') := by
          have := hpres c s hQ hP (by rw [hres])
          rw [hres] at this
          exact this
        exact ih (i + 1) (reset s') hP'
      · intro h
        cases h
theorem noBit7L4_empty : NoBit7L4 emptyL4 := by
  intro b
  simp [emptyL4, Nat.zero_testBit]
theorem noBit7L4_update (data : BlockSetLevel4) (a : Nat) (ha : a % 8 ≠ 7)
    (h : NoBit7L4 data) :
    NoBit7L4 (updateFn data (splitByteNo a)
      (splitByteMask a ||| data (splitByteNo a))) := by
  intro b
  by_cases hb : b = splitByteNo a
  · subst hb
    rw [updateFn_eq, Nat.testBit_or, h (splitByteNo a)]
    have hmask : (splitByteMask a).testBit 7 = false := by
      rw [show splitByteMask a = 2 ^ (splitI4 a % 8) from rfl]
      exact Nat.testBit_two_pow_of_ne (by unfold splitI4; omega)
    rw [hmask]
    rfl
  · rw [updateFn_ne _ _ _ _ hb]
    exact h b
theorem noBit7_set (bs : BlockSet) (a : Nat) (ha : a % 8 ≠ 7)
    (h : ∀ root, bs = some root → NoBit7Root root) :
    ∀ root, blockset_set bs a = some root → NoBit7Root root := by
  intro root hroot
  have hold : NoBit7Root (bs.getD emptyRoot) := by
    cases bs with
    | none =>
      intro i c hc
      cases hc
    | some r => exact h r rfl
  have hroot' : root = updateFn (bs.getD emptyRoot) (splitI1 a) _ :=
    (Option.some_injective _ hroot.symm)
  subst hroot'
  intro i1 c1 hc1
  by_cases h1 : i1 = splitI1 a
  · subst h1
    rw [updateFn_eq] at hc1
    injection hc1 with hc1
    subst hc1
    have hold2 : NoBit7L2 (((bs.getD emptyRoot) (splitI1 a)).getD emptyL2) := by
      rcases hr : (bs.getD emptyRoot) (splitI1 a) with _ | c
      · intro i c hc
        cases hc
      · exact hold _ c hr
    intro i2 c2 hc2
    by_cases h2 : i2 = splitI2 a
    · subst h2
      rw [updateFn_eq] at hc2
      injection hc2 with hc2
      subst hc2
      have hold3 : NoBit7L3
          ((((bs.getD emptyRoot) (splitI1 a)).getD emptyL2 (splitI2 a)).getD emptyL3) := by
        rcases hr : ((bs.getD emptyRoot) (splitI1 a)).getD emptyL2 (splitI2 a) with _ | c
        · intro i d hd
          cases hd
        · exact hold2 _ c hr
      intro i3 d3 hd3
      by_cases h3 : i3 = splitI3 a
      · subst h3
        rw [updateFn_eq] at hd3
        injection hd3 with hd3
        subst hd3
        have hold4 : NoBit7L4
            (((((bs.getD emptyRoot) (splitI1 a)).getD emptyL2 (splitI2 a)).getD emptyL3
              (splitI3 a)).getD emptyL4) := by
          rcases hr : (((bs.getD emptyRoot) (splitI1 a)).getD emptyL2 (splitI2 a)).getD
              emptyL3 (splitI3 a) with _ | d
          · exact noBit7L4_empty
          · exact hold3 _ d hr
        exact noBit7L4_update _ a ha hold4
      · rw [updateFn_ne _ _ _ _ h3] at hd3
        exact hold3 i3 d3 hd3
    · rw [updateFn_ne _ _ _ _ h2] at hc2
      exact hold2 i2 c2 hc2
  · rw [updateFn_ne _ _ _ _ h1] at hc1
    exact hold i1 c1 hc1
theorem noBit7_build (l : List Nat) (hl : ∀ m ∈ l, m % 8 ≠ 7) :
    ∀ root, blockset_build l = some root → NoBit7Root root := by
  suffices h : ∀ (t : List Nat) (bs : BlockSet), (∀ m ∈ t, m % 8 ≠ 7) →
      (∀ root, bs = some root → NoBit7Root root) →
      ∀ root, t.foldl blockset_set bs = some root → NoBit7Root root by
    exact h l none hl (fun root hr => by cases hr)
  intro t
  induction t with
  | nil =>
    intro bs _ hbs root hroot
    exact hbs root hroot
  | cons a t ih =>
    intro bs hl hbs root hroot
    exact ih (blockset_set bs a) (fun m hm => hl m (List.mem_cons_of_mem a hm))
      (noBit7_set bs a (hl a (List.mem_cons_self a t)) hbs) root hroot
theorem subL4_agree (data : BlockSetLevel4) (s : Sigma4) (h7 : NoBit7L4 data)
    (hP : MaskPow s) : subL4 256 data s = subL4 113 data s := by
  obtain ⟨k, hk, hm⟩ := hP
  rcases s with ⟨b, m⟩
  simp only at hm
  subst hm
  have := (scanBytesAux_agree data h7 (32 - b) b k hk).1
  simp only [subL4, scanBytes, this]
theorem subL4_pres (data : BlockSetLevel4) (s : Sigma4) (h7 : NoBit7L4 data)
    (hP : MaskPow s) (_hn : (subL4 256 data s).1 = none) :
    MaskPow ((fun t : Sigma4 => ((0 : Nat), t.2)) (subL4 256 data s).2) := by
  obtain ⟨k, hk, hm⟩ := hP
  rcases s with ⟨b, m⟩
  simp only at hm
  subst hm
  have := (scanBytesAux_agree data h7 (32 - b) b k hk).2
  rcases this with h | h
  · exact ⟨k, hk, by simp only [subL4, scanBytes]; exact h⟩
  · exact ⟨0, by omega, by simp only [subL4, scanBytes, pow_zero]; exact h⟩
theorem subL3_agree (bs3 : BlockSetLevel3) (s : Nat × Sigma4) (h7 : NoBit7L3 bs3)
    (hP : MaskPow3 s) : subL3 256 bs3 s = subL3 113 bs3 s := by
  rcases s with ⟨i3, s4⟩
  exact scanLevelAux_congr (subL4 256) (subL4 113) (fun t => (0, t.2)) 256 bs3
    NoBit7L4 MaskPow h7 subL4_agree subL4_pres (256 - i3) i3 s4 hP
theorem subL3_pres (bs3 : BlockSetLevel3) (s : Nat × Sigma4) (h7 : NoBit7L3 bs3)
    (hP : MaskPow3 s) (hn : (subL3 256 bs3 s).1 = none) :
    MaskPow3 ((fun t : Nat × Sigma4 => ((0 : Nat), t.2)) (subL3 256 bs3 s).2) := by
  rcases s with ⟨i3, s4⟩
  exact scanLevelAux_inv (subL4 256) (fun t => (0, t.2)) 256 bs3
    NoBit7L4 MaskPow h7 subL4_pres (256 - i3) i3 s4 hP hn
theorem subL2_agree (bs2 : BlockSetLevel2) (s : Nat × Nat × Sigma4) (h7 : NoBit7L2 bs2)
    (hP : MaskPow2 s) : subL2 256 bs2 s = subL2 113 bs2 s := by
  rcases s with ⟨i2, s3⟩
  exact scanLevelAux_congr (subL3 256) (subL3 113) (fun t => (0, t.2)) 65536 bs2
    NoBit7L3 MaskPow3 h7 subL3_agree subL3_pres (256 - i2) i2 s3 hP
theorem subL2_pres (bs2 : BlockSetLevel2) (s : Nat × Nat × Sigma4) (h7 : NoBit7L2 bs2)
    (hP : MaskPow2 s) (hn : (subL2 256 bs2 s).1 = none) :
    MaskPow2 ((fun t : Nat × Nat × Sigma4 => ((0 : Nat), t.2)) (subL2 256 bs2 s).2) := by
  rcases s with ⟨i2, s3⟩
  exact scanLevelAux_inv (subL3 256) (fun t => (0, t.2)) 65536 bs2
    NoBit7L3 MaskPow3 h7 subL3_pres (256 - i2) i2 s3 hP hn
/-- On a set built only from members not congruent to 7 mod 8, the
library and the embedded `blockset_next` agree everywhere. -/
theorem blockset_next_impl_agree (bs : BlockSet)
    (hb7 : ∀ root, bs = some root → NoBit7Root root) (x : Nat) :
    blockset_next_impl 256 bs x = blockset_next_impl 113 bs x := by
  cases bs with
  | none => rfl
  | some root =>
    simp only [blockset_next_impl]
    have hagree : scanL2s 256 root
        (splitI1 (if x = InvalidBlockNumber then 0 else x + 1))
        (splitI2 (if x = InvalidBlockNumber then 0 else x + 1),
          splitI3 (if x = InvalidBlockNumber then 0 else x + 1),
          splitByteNo (if x = InvalidBlockNumber then 0 else x + 1),
          splitByteMask (if x = InvalidBlockNumber then 0 else x + 1)) =
        scanL2s 113 root
        (splitI1 (if x = InvalidBlockNumber then 0 else x + 1))
        (splitI2 (if x = InvalidBlockNumber then 0 else x + 1),
          splitI3 (if x = InvalidBlockNumber then 0 else x + 1),
          splitByteNo (if x = InvalidBlockNumber then 0 else x + 1),
          splitByteMask (if x = InvalidBlockNumber then 0 else x + 1)) := by
      apply scanLevelAux_congr (subL2 256) (subL2 113) (fun t => (0, t.2)) 16777216 root
        NoBit7L2 MaskPow2 (hb7 root rfl) subL2_agree subL2_pres
      exact ⟨(if x = InvalidBlockNumber then 0 else x + 1) % 256 % 8, by omega, rfl⟩
    rw [hagree]
/-- C9 (amended): on every set whose members are all not ≡ 7 (mod 8),
the embedded and the library `blockset_next` compute the same function,
for every input block number. -/
theorem C9_blockset_next_agreement (l : List Nat) (hl : ∀ m ∈ l, m % 8 ≠ 7) (x : Nat) :
    blockset_next (blockset_build l) x = blockset_next_emb (blockset_build l) x :=
  blockset_next_impl_agree (blockset_build l) (noBit7_build l hl) x
theorem C9_blockset_next_agreement_witness :
    (∀ m ∈ [3, 5, 300], m % 8 ≠ 7) ∧
      blockset_next (blockset_build [3, 5, 300]) 4 =
        blockset_next_emb (blockset_build [3, 5, 300]) 4 :=
  ⟨by decide, C9_blockset_next_agreement [3, 5, 300] (by decide) 4⟩
/-- C6: for every sequence of `blockset_set` calls starting from the
empty (NULL) set, `blockset_get` returns true exactly for the block
numbers that were inserted and false for every other block number; in
particular, `blockset_get` on the NULL set returns false for every
block number. -/
theorem C6_blockset_get_exact (l : List Nat) (v : Nat)
    (_hl : ∀ m ∈ l, m < 4294967296) (_hv : v < 4294967296) :
    (blockset_get v (blockset_build l) = true ↔ v ∈ l) ∧ blockset_get v none = false :=
  ⟨blockset_get_build l v, rfl⟩
theorem C6_blockset_get_exact_witness :
    ((∀ m ∈ [5, 3, 5], m < 4294967296) ∧ (3 : Nat) < 4294967296) ∧
      ((blockset_get 3 (blockset_build [5, 3, 5]) = true ↔ 3 ∈ [5, 3, 5]) ∧
        blockset_get 3 none = false) :=
  ⟨⟨by decide, by decide⟩, C6_blockset_get_exact [5, 3, 5] 3 (by decide) (by decide)⟩
/-- C4 (code bug witness): on the set `{8}`, the library `blockset_next`
called with block number 2 returns `InvalidBlockNumber` even though 8 is
a member greater than 2.  The `continue` taken on the zero byte 0 skips
the `byte_mask = 1` reset, so byte 1 is scanned with the stale mask
`1 << 3` and bit 0 (block 8) is never tested: the smallest-member-above
contract of the claim — and of the function's own header comment — is
violated. -/
theorem C4_blockset_next_failing_input :
    blockset_get 8 (blockset_build [8]) = true ∧
    blockset_next (blockset_build [8]) 2 = InvalidBlockNumber ∧
    InvalidBlockNumber ≠ 8 := by
  exact ⟨by decide, by decide, by decide⟩
/-- C9 (counterexample): on the set `{7}` the two `blockset_next`
implementations differ at the sentinel: the library copy finds the
member 7, but the embedded copy's bit loop stops at `byte_mask <= 0x70`
and never tests bit 7 of a byte, so it reports an empty set. -/
theorem C9_counterexample :
    blockset_next (blockset_build [7]) InvalidBlockNumber = 7 ∧
    blockset_next_emb (blockset_build [7]) InvalidBlockNumber = InvalidBlockNumber ∧
    (7 : Nat) ≠ InvalidBlockNumber := by
  exact ⟨by decide, by decide, by decide⟩
/-! ### The vacuum engine: phase-1 split chasing (C7) -/
/-- The chase decision of `gistvacuumpage` for a live leaf page. -/
theorem gistvacuumpageBody_snd (callback : VacCallback) (s : VacScanState)
    (blkno orig_blkno : Nat)
    (hnew : (s.store blkno).isNew = false) (hdel : (s.store blkno).isDeleted = false)
    (hleaf : (s.store blkno).isLeaf = true) :
    (gistvacuumpageBody callback s blkno orig_blkno).2 =
      if ((s.store blkno).followRight = true ∨ s.vstate.startNSN < (s.store blkno).nsn) ∧
          (s.store blkno).rightlink ≠ InvalidBlockNumber ∧
          (s.store blkno).rightlink < orig_blkno then
        some (s.store blkno).rightlink
      else none := by
  unfold gistvacuumpageBody
  simp only [hnew, hdel, hleaf, Bool.or_self, Bool.false_eq_true, if_false, if_true]
  cases callback with
  | none => split <;> rfl
  | some f => split <;> split <;> rfl
/-- C7: during phase 1, processing a live leaf page for top-level block
`orig_blkno` goes on to revisit a block before advancing past
`orig_blkno` iff (the page's NSN is newer than the scan-start NSN, or
its follow-right flag is set) and its right link is a valid block
number smaller than `orig_blkno`; in that case the revisited block is
exactly the right link, and the revisit happens by the iterative
chase loop of `gistvacuumpage` continuing with that block. -/
theorem C7_split_chase (callback : VacCallback) (s : VacScanState)
    (blkno orig_blkno : Nat)
    (hnew : (s.store blkno).isNew = false) (hdel : (s.store blkno).isDeleted = false)
    (hleaf : (s.store blkno).isLeaf = true) :
    ((gistvacuumpageBody callback s blkno orig_blkno).2 ≠ none ↔
      (((s.store blkno).followRight = true ∨ s.vstate.startNSN < (s.store blkno).nsn) ∧
        (s.store blkno).rightlink ≠ InvalidBlockNumber ∧
        (s.store blkno).rightlink < orig_blkno)) ∧
    (∀ r, (gistvacuumpageBody callback s blkno orig_blkno).2 = some r →
      r = (s.store blkno).rightlink) ∧
    (∀ fuel r, (gistvacuumpageBody callback s blkno orig_blkno).2 = some r →
      gistvacuumpage callback (fuel + 1) s blkno orig_blkno =
        gistvacuumpage callback fuel (gistvacuumpageBody callback s blkno orig_blkno).1
          r orig_blkno) := by
  have hsnd := gistvacuumpageBody_snd callback s blkno orig_blkno hnew hdel hleaf
  refine ⟨?_, ?_, ?_⟩
  · rw [hsnd]
    constructor
    · intro h
      by_contra hc
      rw [if_neg hc] at h
      exact h rfl
    · intro h
      rw [if_pos h]
      simp
  · intro r hr
    rw [hsnd] at hr
    by_cases hc : ((s.store blkno).followRight = true ∨
        s.vstate.startNSN < (s.store blkno).nsn) ∧
        (s.store blkno).rightlink ≠ InvalidBlockNumber ∧
        (s.store blkno).rightlink < orig_blkno
    · rw [if_pos hc] at hr
      injection hr with h
      exact h.symm
    · rw [if_neg hc] at hr
      cases hr
  · intro fuel r hr
    show (match gistvacuumpageBody callback s blkno orig_blkno with
      | (s', none) => s'
      | (s', some rr) => gistvacuumpage callback fuel s' rr orig_blkno) = _
    rcases hbody : gistvacuumpageBody callback s blkno orig_blkno with ⟨s', ro⟩
    rw [hbody] at hr
    simp only at hr
    subst hr
    rfl
/-- C7 witness: on the concrete index above, processing leaf 5 chases
its right link. -/
theorem C7_split_chase_witness :
    ((chaseState.store 5).isNew = false ∧ (chaseState.store 5).isDeleted = false ∧
      (chaseState.store 5).isLeaf = true) ∧
    ((gistvacuumpageBody none chaseState 5 5).2 ≠ none ↔
      (((chaseState.store 5).followRight = true ∨
          chaseState.vstate.startNSN < (chaseState.store 5).nsn) ∧
        (chaseState.store 5).rightlink ≠ InvalidBlockNumber ∧
        (chaseState.store 5).rightlink < 5)) :=
  ⟨⟨rfl, rfl, rfl⟩, (C7_split_chase none chaseState 5 5 rfl rfl rfl).1⟩
/-! ### Cleanup statistics clamping (C8) -/
/-- C8 (counterexample): a cleanup invocation whose caller marked the
heap count as an estimate (`estimated_count` true) performs no clamping:
it returns a live-entry count of 10 although `num_heap_tuples` is 5. -/
theorem C8_counterexample :
    (gistvacuumcleanup infoC 1 77 8 8 storeB 3 (some statsTen)).2 = some statsTen ∧
    statsTen.num_index_tuples = 10 ∧ infoC.num_heap_tuples = 5 ∧
    infoC.analyze_only = false ∧ (5 : Nat) < 10 :=
  ⟨rfl, rfl, rfl, rfl, by omega⟩
/-- C8 (amended): for every cleanup invocation that is not ANALYZE-only
and whose caller's heap count is not an estimate (`estimated_count`
false), the live-entry count in the returned statistics is clamped to
the caller's `num_heap_tuples` value. -/
theorem C8_clamp (info : IndexVacuumInfoM) (startNSN txid chaseFuel p2Fuel : Nat)
    (store : Store) (numPages : Nat) (stats : Option IndexBulkDeleteResult)
    (hao : info.analyze_only = false) (hec : info.estimated_count = false) :
    ∀ st, (gistvacuumcleanup info startNSN txid chaseFuel p2Fuel store numPages stats).2
      = some st → st.num_index_tuples ≤ info.num_heap_tuples := by
  have clamp_le : ∀ (h : Nat) (st0 : IndexBulkDeleteResult),
      (if h < st0.num_index_tuples then { st0 with num_index_tuples := h }
       else st0).num_index_tuples ≤ h := by
    intro h st0
    by_cases hlt : h < st0.num_index_tuples
    · rw [if_pos hlt]
    · rw [if_neg hlt]
      omega
  intro st hst
  unfold gistvacuumcleanup at hst
  rw [if_neg (by rw [hao]; exact fun h => Bool.noConfusion h)] at hst
  cases stats with
  | some st0 =>
    simp only at hst
    rw [if_pos hec] at hst
    injection hst with h
    rw [← h]
    exact clamp_le info.num_heap_tuples st0
  | none =>
    simp only at hst
    rw [if_pos hec] at hst
    injection hst with h
    rw [← h]
    exact clamp_le info.num_heap_tuples _
/-- C8 witness: the claim theorem applied to a concrete clamped run. -/
theorem C8_clamp_witness :
    (infoD.analyze_only = false ∧ infoD.estimated_count = false) ∧
    ({ statsTen with num_index_tuples := 5 } : IndexBulkDeleteResult).num_index_tuples
      ≤ infoD.num_heap_tuples :=
  ⟨⟨rfl, rfl⟩, C8_clamp infoD 1 77 8 8 storeB 3 (some statsTen) rfl rfl
    { statsTen with num_index_tuples := 5 } rfl⟩
/-! ### Phase 2: safety of leaf deletion (C1) and the downlink bound (C2) -/
theorem setPage_eq (st : Store) (blkno : Nat) (p : GistPageM) :
    setPage st blkno p blkno = p := by
  simp [setPage]
theorem setPage_ne (st : Store) (blkno b : Nat) (p : GistPageM) (h : b ≠ blkno) :
    setPage st blkno p b = st b := by
  simp [setPage, h]
/-- Every downlink queued by the phase-2 check loop, beyond those
already in `acc`, points to a block that — in the store the check
reads — is still a leaf, still empty, has no follow-right set, and has
an NSN not newer than the internal page's NSN. -/
theorem phase2Collect_sound (store : Store) (emptyMap : BlockSet) (parentNSN maxoff : Nat) :
    ∀ (tups : List IndexTupleM) (off : Nat) (acc : List (Nat × Nat)) (o lb : Nat),
      (o, lb) ∈ phase2Collect store emptyMap parentNSN maxoff tups off acc →
      (o, lb) ∈ acc ∨
        ((store lb).isLeaf = true ∧ (store lb).tuples = [] ∧
          (store lb).followRight = false ∧ (store lb).nsn ≤ parentNSN) := by
  intro tups
  induction tups with
  | nil =>
    intro off acc o lb h
    exact Or.inl h
  | cons t rest ih =>
    intro off acc o lb h
    unfold phase2Collect at h
    by_cases hget : blockset_get t.tidBlock emptyMap
    · rw [if_pos hget] at h
      by_cases hleaf : (store t.tidBlock).isLeaf
      · rw [if_pos hleaf] at h
        by_cases hcond : (store t.tidBlock).tuples.length = 0 ∧
            ¬((store t.tidBlock).followRight = true ∨
              parentNSN < (store t.tidBlock).nsn) ∧
            acc.length < maxoff - 1
        · rw [if_pos hcond] at h
          rcases ih (off + 1) (acc ++ [(off, t.tidBlock)]) o lb h with hin | hP
          · rcases List.mem_append.mp hin with hin | hin
            · exact Or.inl hin
            · have heq : (o, lb) = (off, t.tidBlock) := List.mem_singleton.mp hin
              injection heq with ho hlb
              subst hlb
              refine Or.inr ⟨hleaf, List.length_eq_zero.mp hcond.1, ?_, ?_⟩
              · have := hcond.2.1
                rcases hb : (store t.tidBlock).followRight with _ | _
                · rfl
                · exact absurd (Or.inl hb) this
              · have := hcond.2.1
                omega
          · exact Or.inr hP
        · rw [if_neg hcond] at h
          exact ih (off + 1) acc o lb h
      · rw [if_neg hleaf] at h
        exact ih (off + 1) acc o lb h
    · rw [if_neg hget] at h
      exact ih (off + 1) acc o lb h
/-- The phase-2 check loop queues at most `maxoff - 1` downlinks. -/
theorem phase2Collect_length (store : Store) (emptyMap : BlockSet) (parentNSN maxoff : Nat) :
    ∀ (tups : List IndexTupleM) (off : Nat) (acc : List (Nat × Nat)),
      (phase2Collect store emptyMap parentNSN maxoff tups off acc).length ≤
        max acc.length (maxoff - 1) := by
  intro tups
  induction tups with
  | nil =>
    intro off acc
    exact le_max_left _ _
  | cons t rest ih =>
    intro off acc
    unfold phase2Collect
    by_cases hget : blockset_get t.tidBlock emptyMap
    · rw [if_pos hget]
      by_cases hleaf : (store t.tidBlock).isLeaf
      · rw [if_pos hleaf]
        by_cases hcond : (store t.tidBlock).tuples.length = 0 ∧
            ¬((store t.tidBlock).followRight = true ∨
              parentNSN < (store t.tidBlock).nsn) ∧
            acc.length < maxoff - 1
        · rw [if_pos hcond]
          have := ih (off + 1) (acc ++ [(off, t.tidBlock)])
          have hlen : (acc ++ [(off, t.tidBlock)]).length = acc.length + 1 := by
            simp
          rw [hlen] at this
          have hle : acc.length + 1 ≤ maxoff - 1 := hcond.2.2
          omega
        · rw [if_neg hcond]
          exact ih (off + 1) acc
      · rw [if_neg hleaf]
        exact ih (off + 1) acc
    · rw [if_neg hget]
      exact ih (off + 1) acc
theorem phase2ApplyOne_deleted (txid parentBlk i : Nat) (item : Nat × Nat)
    (s : VacScanState) (b : Nat)
    (h : ((phase2ApplyOne txid parentBlk s i item).store b).isDeleted = true) :
    (s.store b).isDeleted = true ∨ b = item.2 := by
  by_cases hb2 : b = item.2
  · exact Or.inr hb2
  · left
    by_cases hbp : b = parentBlk
    · by_cases hp2 : parentBlk = item.2
      · exact absurd (hbp.trans hp2) hb2
      · rw [hbp]
        simp only [phase2ApplyOne, hbp, setPage_eq] at h
        simpa [setPage_ne _ _ _ _ hp2] using h
    · simpa [phase2ApplyOne, setPage_ne _ _ _ _ hbp, setPage_ne _ _ _ _ hb2] using h
/-- A block marked deleted by the phase-2 deletion loop was either
already deleted or is the target of one of the queued downlinks. -/
theorem phase2Apply_deleted (txid parentBlk : Nat) :
    ∀ (pairs : List (Nat × Nat × Nat)) (s : VacScanState) (b : Nat),
      (((pairs.foldl (fun s p => phase2ApplyOne txid parentBlk s p.1 p.2) s).store b).isDeleted
          = true) →
      (s.store b).isDeleted = true ∨ ∃ p ∈ pairs, b = p.2.2 := by
  intro pairs
  induction pairs with
  | nil =>
    intro s b h
    exact Or.inl h
  | cons p ps ih =>
    intro s b h
    rw [List.foldl_cons] at h
    rcases ih (phase2ApplyOne txid parentBlk s p.1 p.2) b h with h1 | h1
    · rcases phase2ApplyOne_deleted txid parentBlk p.1 p.2 s b h1 with h2 | h2
      · exact Or.inl h2
      · exact Or.inr ⟨p, List.mem_cons_self _ _, h2⟩
    · rcases h1 with ⟨q, hq, hb⟩
      exact Or.inr ⟨q, List.mem_cons_of_mem _ hq, hb⟩
/-- C1 (counterexample): `runA` models a full bulk-delete over a
three-page index scanned with start NSN 1; its empty leaf (block 1)
carries NSN 5, newer than the marker captured at scan start, so by the
claim's split test ("split-generation marker not newer than the marker
captured at scan start") the leaf counts as split since the scan began
and must not be deleted — yet the run deletes it (deleted flag set,
delete-xid 77 stamped), because the phase-2 re-check in the code
compares the leaf's NSN against the *parent page's* NSN (10 here), not
against the scan-start marker phase 1 uses. -/
theorem C1_counterexample :
    runA = gistbulkdelete (some (fun _ => false)) 1 77 8 8 storeA 3 none ∧
    (storeA 1).isLeaf = true ∧ (storeA 1).tuples = [] ∧
    (storeA 1).nsn = 5 ∧ (1 : Nat) < 5 ∧
    (runA.store 1).isDeleted = true ∧ (runA.store 1).deleteXid = 77 ∧
    (storeA 0).nsn = 10 :=
  ⟨rfl, rfl, rfl, rfl, by omega, by decide, by decide, rfl⟩
/-- C1 (amended): phase-2 deletion safety as the code actually decides
it.  If the atomic phase-2 step for internal page `parentBlk` marks a
previously-undeleted page `b` deleted, then at the moment the step ran,
`b` was still a leaf, still held zero entries, and passed the split
re-check — follow-right clear and NSN not newer than the *parent
page's current* NSN (not the scan-start marker, which is where the
original claim diverges from the code).  In particular a leaf that
gained an entry between phase 1 and phase 2 is never deleted. -/
theorem C1_phase2_deletion_safety (txid : Nat) (s : VacScanState) (parentBlk b : Nat)
    (hbefore : (s.store b).isDeleted = false)
    (hafter : ((phase2ProcessPage txid s parentBlk).store b).isDeleted = true) :
    (s.store b).isLeaf = true ∧ (s.store b).tuples = [] ∧
      (s.store b).followRight = false ∧ (s.store b).nsn ≤ (s.store parentBlk).nsn := by
  simp only [phase2ProcessPage] at hafter
  by_cases hskip : (s.store parentBlk).isNew || (s.store parentBlk).isDeleted ||
      (s.store parentBlk).isLeaf
  · rw [if_pos hskip] at hafter
    rw [hafter] at hbefore
    exact absurd hbefore (by simp)
  · rw [if_neg hskip] at hafter
    unfold phase2Apply at hafter
    rcases phase2Apply_deleted txid parentBlk _ s b hafter with h1 | ⟨p, hp, hb⟩
    · rw [h1] at hbefore
      exact absurd hbefore (by simp)
    · rcases p with ⟨i, o, lb⟩
      have hmem : (o, lb) ∈ phase2Collect s.store s.vstate.emptyLeafPagesMap
          (s.store parentBlk).nsn (s.store parentBlk).tuples.length
          (s.store parentBlk).tuples 1 [] := by
        have h2 := List.mem_map_of_mem Prod.snd hp
        rwa [List.enum_map_snd] at h2
      rcases phase2Collect_sound s.store s.vstate.emptyLeafPagesMap
          (s.store parentBlk).nsn (s.store parentBlk).tuples.length
          (s.store parentBlk).tuples 1 [] o lb hmem with hin | hP
      · exact absurd hin (List.not_mem_nil _)
      · rw [hb]
        exact hP
/-- C1 witness: the amended theorem applied to the concrete mid-run
state `p2State`, processing internal page 0, which deletes leaf 1. -/
theorem C1_phase2_deletion_safety_witness :
    (p2State.store 1).isDeleted = false ∧
    ((phase2ProcessPage 77 p2State 0).store 1).isDeleted = true ∧
    ((p2State.store 1).isLeaf = true ∧ (p2State.store 1).tuples = [] ∧
      (p2State.store 1).followRight = false ∧
      (p2State.store 1).nsn ≤ (p2State.store 0).nsn) :=
  ⟨rfl, by decide, C1_phase2_deletion_safety 77 p2State 0 1 rfl (by decide)⟩
/-! ### The stats-only cleanup scan (C3) -/
/-- With a NULL callback, one iteration of the phase-1 page loop never
touches the index pages and never counts removed tuples. -/
theorem gistvacuumpageBody_none_frame (s : VacScanState) (blkno orig_blkno : Nat) :
    ((gistvacuumpageBody none s blkno orig_blkno).1).store = s.store ∧
    ((gistvacuumpageBody none s blkno orig_blkno).1).stats.tuples_removed =
      s.stats.tuples_removed := by
  constructor <;>
  · simp only [gistvacuumpageBody]
    split
    · rfl
    · split
      · split <;> rfl
      · rfl
theorem gistvacuumpage_none_frame (fuel : Nat) :
    ∀ (s : VacScanState) (blkno orig_blkno : Nat),
      ((gistvacuumpage none fuel s blkno orig_blkno).store = s.store ∧
       (gistvacuumpage none fuel s blkno orig_blkno).stats.tuples_removed =
         s.stats.tuples_removed) := by
  induction fuel with
  | zero => intro s blkno orig_blkno; exact ⟨rfl, rfl⟩
  | succ n ih =>
    intro s blkno orig_blkno
    rcases hbody : gistvacuumpageBody none s blkno orig_blkno with ⟨s', ro⟩
    have hframe := gistvacuumpageBody_none_frame s blkno orig_blkno
    rw [hbody] at hframe
    have hstep : gistvacuumpage none (n + 1) s blkno orig_blkno =
        (match gistvacuumpageBody none s blkno orig_blkno with
         | (s2, none) => s2
         | (s2, some r) => gistvacuumpage none n s2 r orig_blkno) := rfl
    rw [hstep, hbody]
    rcases ro with _ | r
    · exact hframe
    · have h2 := ih s' r orig_blkno
      exact ⟨h2.1.trans hframe.1, h2.2.trans hframe.2⟩
/-- With a NULL callback the whole phase-1 scan is a pure read: pages
unchanged, `tuples_removed` unchanged. -/
theorem gistvacuumscanPhase1_none_frame (chaseFuel : Nat) :
    ∀ (l : List Nat) (s : VacScanState),
      ((l.foldl (fun s b => gistvacuumpage none chaseFuel s b b) s).store = s.store ∧
       (l.foldl (fun s b => gistvacuumpage none chaseFuel s b b) s).stats.tuples_removed =
         s.stats.tuples_removed) := by
  intro l
  induction l with
  | nil => intro s; exact ⟨rfl, rfl⟩
  | cons b rest ih =>
    intro s
    rw [List.foldl_cons]
    have h1 := gistvacuumpage_none_frame chaseFuel s b b
    have h2 := ih (gistvacuumpage none chaseFuel s b b)
    exact ⟨h2.1.trans h1.1, h2.2.trans h1.2⟩
theorem phase2Apply_tuples_removed (txid parentBlk : Nat) :
    ∀ (pairs : List (Nat × Nat × Nat)) (s : VacScanState),
      (pairs.foldl (fun s p => phase2ApplyOne txid parentBlk s p.1 p.2) s).stats.tuples_removed
        = s.stats.tuples_removed := by
  intro pairs
  induction pairs with
  | nil => intro s; rfl
  | cons p ps ih =>
    intro s
    rw [List.foldl_cons]
    exact ih (phase2ApplyOne txid parentBlk s p.1 p.2)
theorem phase2ProcessPage_tuples_removed (txid : Nat) (s : VacScanState) (blkno : Nat) :
    (phase2ProcessPage txid s blkno).stats.tuples_removed = s.stats.tuples_removed := by
  simp only [phase2ProcessPage]
  split
  · rfl
  · exact phase2Apply_tuples_removed txid blkno _ s
theorem phase2Loop_tuples_removed (txid : Nat) :
    ∀ (fuel : Nat) (s : VacScanState) (x : Nat),
      (phase2Loop txid fuel s x).stats.tuples_removed = s.stats.tuples_removed := by
  intro fuel
  induction fuel with
  | zero => intro s x; rfl
  | succ n ih =>
    intro s x
    rw [show phase2Loop txid (n + 1) s x =
        (if 0 < s.vstate.emptyPages then
          if blockset_next_emb s.vstate.internalPagesMap x = InvalidBlockNumber then s
          else phase2Loop txid n
            (phase2ProcessPage txid s (blockset_next_emb s.vstate.internalPagesMap x))
            (blockset_next_emb s.vstate.internalPagesMap x)
        else s) from rfl]
    split
    · split
      · rfl
      · rw [ih]
        exact phase2ProcessPage_tuples_removed txid s _
    · rfl
/-- The scan run from `gistvacuumcleanup` (NULL callback) counts no
removed tuples. -/
theorem gistvacuumscan_none_tuples_removed (startNSN txid chaseFuel p2Fuel : Nat)
    (store : Store) (numPages : Nat) (stats : IndexBulkDeleteResult) :
    (gistvacuumscan none startNSN txid chaseFuel p2Fuel store numPages stats).stats.tuples_removed
      = stats.tuples_removed := by
  simp only [gistvacuumscan, gistvacuumscanPhase1End, gistvacuumscanPhase1]
  split
  · rw [phase2Loop_tuples_removed]
    exact (gistvacuumscanPhase1_none_frame chaseFuel (List.range numPages) _).2
  · exact (gistvacuumscanPhase1_none_frame chaseFuel (List.range numPages) _).2
/-- C3 (counterexample): `runB` models a cleanup call with NULL prior
stats (bulk delete never invoked) on a three-page index whose leaf at
block 1 is already empty.  The stats-only run is *not* a pure read: it
deletes page 1 (reports one page deleted) and removes the corresponding
downlink from the root, whose entry count drops from 2 to 1 —
contradicting "deletes no pages, and leaves every page's contents
unchanged". -/
theorem C3_counterexample :
    runB = gistvacuumcleanup infoB 1 77 8 8 storeB 3 none ∧
    (storeB 1).isDeleted = false ∧ ((runB.1) 1).isDeleted = true ∧
    (runB.2.getD emptyStats).pages_deleted = 1 ∧
    (storeB 0).tuples.length = 2 ∧ ((runB.1) 0).tuples.length = 1 :=
  ⟨rfl, rfl, by decide, by decide, rfl, by decide⟩
/-- C3 (amended): when bulk delete was never invoked, cleanup (not in
ANALYZE-only mode) runs the phase-1 scan with a NULL callback, and that
scan removes no entries: phase 1 leaves every page's contents unchanged
and the returned statistics report zero removed tuples.  (The full run
may still, in phase 2, delete pages that were *already* empty —
the behaviour the counterexample exhibits.) -/
theorem C3_stats_only_scan (info : IndexVacuumInfoM) (startNSN txid chaseFuel p2Fuel : Nat)
    (store : Store) (numPages : Nat) (s : VacScanState)
    (hao : info.analyze_only = false) :
    (∀ b, (gistvacuumscanPhase1 none chaseFuel numPages s).store b = s.store b) ∧
    ∃ st, (gistvacuumcleanup info startNSN txid chaseFuel p2Fuel store numPages none).2 =
        some st ∧ st.tuples_removed = 0 := by
  constructor
  · intro b
    rw [show gistvacuumscanPhase1 none chaseFuel numPages s =
        (List.range numPages).foldl (fun s b => gistvacuumpage none chaseFuel s b b) s
      from rfl]
    rw [(gistvacuumscanPhase1_none_frame chaseFuel (List.range numPages) s).1]
  · simp only [gistvacuumcleanup, hao, Bool.false_eq_true, if_false]
    have hscan := gistvacuumscan_none_tuples_removed startNSN txid chaseFuel p2Fuel
      store numPages emptyStats
    refine ⟨_, rfl, ?_⟩
    split
    · split
      · exact hscan
      · exact hscan
    · exact hscan
/-- C3 witness: the amended theorem at the concrete `runB` inputs. -/
theorem C3_stats_only_scan_witness :
    infoB.analyze_only = false ∧
    ((gistvacuumscanPhase1 none 8 3 p2State).store 1 = p2State.store 1) ∧
    (∃ st, (gistvacuumcleanup infoB 1 77 8 8 storeB 3 none).2 = some st ∧
      st.tuples_removed = 0) :=
  ⟨rfl, (C3_stats_only_scan infoB 1 77 8 8 storeB 3 p2State rfl).1 1,
    (C3_stats_only_scan infoB 1 77 8 8 storeB 3 p2State rfl).2⟩
/-! ### The downlink invariant (C2) -/
theorem storeEvolves_refl (s : Store) : StoreEvolves s s := by
  intro b
  exact Or.inr (Or.inr (Or.inl rfl))
theorem storeEvolves_trans {s t u : Store}
    (h1 : StoreEvolves s t) (h2 : StoreEvolves t u) : StoreEvolves s u := by
  intro b
  rcases h2 b with h | h | h | h
  · exact Or.inl h
  · exact Or.inr (Or.inl h)
  · rcases h1 b with g | g | g | g
    · exact Or.inl (h ▸ g)
    · exact Or.inr (Or.inl (h ▸ g))
    · exact Or.inr (Or.inr (Or.inl (h.trans g)))
    · exact Or.inr (Or.inr (Or.inr ⟨h ▸ g.1, h ▸ g.2.1, h ▸ g.2.2.1, h ▸ g.2.2.2⟩))
  · rcases h1 b with g | g | g | g
    · exact Or.inl (h.2.2.1.trans g)
    · exact Or.inr (Or.inl (h.2.1.trans g))
    · exact Or.inr (Or.inr (Or.inr ⟨g ▸ h.1, g ▸ h.2.1, g ▸ h.2.2.1, g ▸ h.2.2.2⟩))
    · exact Or.inr (Or.inr (Or.inr ⟨h.1.trans g.1, h.2.1.trans g.2.1,
        h.2.2.1.trans g.2.2.1, fun hp => h.2.2.2 (g.2.2.2 hp)⟩))
theorem storeInv_of_evolves {s s' : Store}
    (hinv : StoreInv s) (hev : StoreEvolves s s') : StoreInv s' := by
  intro b hnew hdel hleaf
  rcases hev b with h | h | h | h
  · exact absurd h (by simp [hleaf])
  · exact absurd h (by simp [hdel])
  · rw [h]
    rw [h] at hnew hdel hleaf
    exact hinv b hnew hdel hleaf
  · exact h.2.2.2 (hinv b (h.1 ▸ hnew) (h.2.1 ▸ hdel) (h.2.2.1 ▸ hleaf))
/-- Phase 1 never touches an internal page and rewrites a leaf page
only in place (it stays a leaf). -/
theorem storeEvolves_body (callback : VacCallback) (s : VacScanState)
    (blkno orig_blkno : Nat) :
    StoreEvolves s.store ((gistvacuumpageBody callback s blkno orig_blkno).1).store := by
  intro b
  rcases callback with _ | f
  · simp only [gistvacuumpageBody]
    split
    · exact Or.inr (Or.inr (Or.inl rfl))
    · split
      · split <;> exact Or.inr (Or.inr (Or.inl rfl))
      · exact Or.inr (Or.inr (Or.inl rfl))
  · simp only [gistvacuumpageBody]
    split
    · exact Or.inr (Or.inr (Or.inl rfl))
    · split
      · rename_i hleaf
        split <;> split <;>
        · first
            | exact Or.inr (Or.inr (Or.inl rfl))
            | (by_cases hb : b = blkno
               · subst hb
                 left
                 simp only [setPage_eq]
                 exact hleaf
               · right; right; left
                 exact setPage_ne _ _ _ _ hb)
      · exact Or.inr (Or.inr (Or.inl rfl))
theorem storeEvolves_page (callback : VacCallback) (fuel : Nat) :
    ∀ (s : VacScanState) (blkno orig_blkno : Nat),
      StoreEvolves s.store (gistvacuumpage callback fuel s blkno orig_blkno).store := by
  induction fuel with
  | zero => intro s _ _; exact storeEvolves_refl s.store
  | succ n ih =>
    intro s blkno orig_blkno
    rcases hbody : gistvacuumpageBody callback s blkno orig_blkno with ⟨s', ro⟩
    have hb := storeEvolves_body callback s blkno orig_blkno
    rw [hbody] at hb
    have hstep : gistvacuumpage callback (n + 1) s blkno orig_blkno =
        (match gistvacuumpageBody callback s blkno orig_blkno with
         | (s2, none) => s2
         | (s2, some r) => gistvacuumpage callback n s2 r orig_blkno) := rfl
    rw [hstep, hbody]
    rcases ro with _ | r
    · exact hb
    · exact storeEvolves_trans hb (ih s' r orig_blkno)
theorem storeEvolves_phase1 (callback : VacCallback) (chaseFuel : Nat) :
    ∀ (l : List Nat) (s : VacScanState),
      StoreEvolves s.store
        ((l.foldl (fun s b => gistvacuumpage callback chaseFuel s b b) s).store) := by
  intro l
  induction l with
  | nil => intro s; exact storeEvolves_refl s.store
  | cons b rest ih =>
    intro s
    rw [List.foldl_cons]
    exact storeEvolves_trans (storeEvolves_page callback chaseFuel s b b)
      (ih (gistvacuumpage callback chaseFuel s b b))
theorem length_le_length_eraseIdx_succ {α : Type} : ∀ (l : List α) (k : Nat),
    l.length ≤ (l.eraseIdx k).length + 1 := by
  intro l
  induction l with
  | nil => intro k; simp [List.eraseIdx]
  | cons x xs ih =>
    intro k
    cases k with
    | zero => simp [List.eraseIdx]
    | succ n =>
      have := ih n
      simp only [List.eraseIdx, List.length_cons]
      omega
theorem phase2ApplyOne_deleted_mono (txid parentBlk i : Nat) (item : Nat × Nat)
    (s : VacScanState) (b : Nat) (h : (s.store b).isDeleted = true) :
    ((phase2ApplyOne txid parentBlk s i item).store b).isDeleted = true := by
  simp only [phase2ApplyOne, setPage]
  by_cases hbp : b = parentBlk
  · by_cases hp2 : parentBlk = item.2 <;> simp [hbp, hp2, h, hbp ▸ h]
  · by_cases hb2 : b = item.2
    · simp [hbp, hb2, hb2 ▸ hbp, h]
    · simp [hbp, hb2, h]
theorem phase2ApplyOne_marks (txid parentBlk i : Nat) (item : Nat × Nat)
    (s : VacScanState) :
    ((phase2ApplyOne txid parentBlk s i item).store item.2).isDeleted = true := by
  simp only [phase2ApplyOne, setPage]
  by_cases hbp : item.2 = parentBlk <;> simp [hbp]
theorem phase2ApplyOne_other (txid parentBlk i : Nat) (item : Nat × Nat)
    (s : VacScanState) (b : Nat) (hbp : b ≠ parentBlk) (hb2 : b ≠ item.2) :
    (phase2ApplyOne txid parentBlk s i item).store b = s.store b := by
  simp only [phase2ApplyOne, setPage]
  simp [hbp, hb2]
theorem phase2ApplyOne_parent (txid parentBlk i : Nat) (item : Nat × Nat)
    (s : VacScanState) (hne : item.2 ≠ parentBlk) :
    (phase2ApplyOne txid parentBlk s i item).store parentBlk =
      { s.store parentBlk with
          tuples := (s.store parentBlk).tuples.eraseIdx (item.1 - i - 1) } := by
  simp only [phase2ApplyOne, setPage]
  simp [Ne.symm hne]
theorem phase2ApplyFold_deleted_mono (txid parentBlk : Nat) :
    ∀ (pairs : List (Nat × Nat × Nat)) (s : VacScanState) (b : Nat),
      (s.store b).isDeleted = true →
      (((pairs.foldl (fun s p => phase2ApplyOne txid parentBlk s p.1 p.2) s).store b).isDeleted
        = true) := by
  intro pairs
  induction pairs with
  | nil => intro s b h; exact h
  | cons p ps ih =>
    intro s b h
    rw [List.foldl_cons]
    exact ih _ b (phase2ApplyOne_deleted_mono txid parentBlk p.1 p.2 s b h)
/-- Every queued downlink target ends up marked deleted by the phase-2
deletion loop. -/
theorem phase2ApplyFold_marks (txid parentBlk : Nat) :
    ∀ (pairs : List (Nat × Nat × Nat)) (s : VacScanState) (b : Nat),
      (∃ p ∈ pairs, b = p.2.2) →
      (((pairs.foldl (fun s p => phase2ApplyOne txid parentBlk s p.1 p.2) s).store b).isDeleted
        = true) := by
  intro pairs
  induction pairs with
  | nil =>
    intro s b h
    rcases h with ⟨p, hp, _⟩
    exact absurd hp (List.not_mem_nil p)
  | cons p ps ih =>
    intro s b h
    rw [List.foldl_cons]
    rcases h with ⟨q, hq, hb⟩
    rcases List.mem_cons.mp hq with hq1 | hq1
    · subst hq1
      rw [hb]
      exact phase2ApplyFold_deleted_mono txid parentBlk ps _ q.2.2
        (phase2ApplyOne_marks txid parentBlk q.1 q.2 s)
    · exact ih _ b ⟨q, hq1, hb⟩
theorem phase2ApplyFold_frame (txid parentBlk : Nat) :
    ∀ (pairs : List (Nat × Nat × Nat)) (s : VacScanState) (b : Nat),
      b ≠ parentBlk → (∀ p ∈ pairs, b ≠ p.2.2) →
      ((pairs.foldl (fun s p => phase2ApplyOne txid parentBlk s p.1 p.2) s).store b
        = s.store b) := by
  intro pairs
  induction pairs with
  | nil => intro s b _ _; rfl
  | cons p ps ih =>
    intro s b hbp hb2
    rw [List.foldl_cons]
    rw [ih _ b hbp (fun q hq => hb2 q (List.mem_cons_of_mem _ hq))]
    exact phase2ApplyOne_other txid parentBlk p.1 p.2 s b hbp
      (hb2 p (List.mem_cons_self _ _))
/-- When no queued item targets the internal page itself, the deletion
loop only trims that page's downlink list: its flags survive and it
loses at most one downlink per queued item. -/
theorem phase2ApplyFold_parent (txid parentBlk : Nat) :
    ∀ (pairs : List (Nat × Nat × Nat)) (s : VacScanState),
      (∀ p ∈ pairs, p.2.2 ≠ parentBlk) →
      (((pairs.foldl (fun s p => phase2ApplyOne txid parentBlk s p.1 p.2) s).store parentBlk).isNew
          = (s.store parentBlk).isNew ∧
       ((pairs.foldl (fun s p => phase2ApplyOne txid parentBlk s p.1 p.2) s).store parentBlk).isDeleted
          = (s.store parentBlk).isDeleted ∧
       ((pairs.foldl (fun s p => phase2ApplyOne txid parentBlk s p.1 p.2) s).store parentBlk).isLeaf
          = (s.store parentBlk).isLeaf ∧
       (s.store parentBlk).tuples.length ≤
         ((pairs.foldl (fun s p => phase2ApplyOne txid parentBlk s p.1 p.2) s).store parentBlk).tuples.length
           + pairs.length) := by
  intro pairs
  induction pairs with
  | nil => intro s _; exact ⟨rfl, rfl, rfl, Nat.le_refl _⟩
  | cons p ps ih =>
    intro s hps
    rw [List.foldl_cons]
    have hone := phase2ApplyOne_parent txid parentBlk p.1 p.2 s
      (hps p (List.mem_cons_self _ _))
    have hrest := ih (phase2ApplyOne txid parentBlk s p.1 p.2)
      (fun q hq => hps q (List.mem_cons_of_mem _ hq))
    rw [hone] at hrest
    refine ⟨hrest.1, hrest.2.1, hrest.2.2.1, ?_⟩
    have h1 := hrest.2.2.2
    simp only at h1
    have h2 := length_le_length_eraseIdx_succ (s.store parentBlk).tuples (p.2.1 - p.1 - 1)
    simp only [List.length_cons]
    omega
/-- Phase 2's processing of one internal page only retires queued empty
leaves and trims the page's own downlinks — never below one. -/
theorem storeEvolves_processPage (txid : Nat) (s : VacScanState) (blkno : Nat) :
    StoreEvolves s.store (phase2ProcessPage txid s blkno).store := by
  simp only [phase2ProcessPage]
  split
  · exact storeEvolves_refl s.store
  · rename_i hskip
    have hleafP : (s.store blkno).isLeaf = false := by
      rcases hlf : (s.store blkno).isLeaf
      · rfl
      · rw [hlf] at hskip
        simp at hskip
    intro b
    have hsound : ∀ p ∈ (phase2Collect s.store s.vstate.emptyLeafPagesMap
        (s.store blkno).nsn (s.store blkno).tuples.length (s.store blkno).tuples 1 []).enum,
        ((s.store (p : Nat × Nat × Nat).2.2).isLeaf = true ∧
          (s.store p.2.2).tuples = []) := by
      intro p hp
      have hmem : p.2 ∈ phase2Collect s.store s.vstate.emptyLeafPagesMap
          (s.store blkno).nsn (s.store blkno).tuples.length (s.store blkno).tuples 1 [] := by
        have h2 := List.mem_map_of_mem Prod.snd hp
        rwa [List.enum_map_snd] at h2
      rcases phase2Collect_sound s.store s.vstate.emptyLeafPagesMap
          (s.store blkno).nsn (s.store blkno).tuples.length (s.store blkno).tuples
          1 [] p.2.1 p.2.2 hmem with hin | hP
      · exact absurd hin (List.not_mem_nil _)
      · exact ⟨hP.1, hP.2.1⟩
    have hne : ∀ p ∈ (phase2Collect s.store s.vstate.emptyLeafPagesMap
        (s.store blkno).nsn (s.store blkno).tuples.length (s.store blkno).tuples 1 []).enum,
        (p : Nat × Nat × Nat).2.2 ≠ blkno := by
      intro p hp heq
      have := (hsound p hp).1
      rw [heq, hleafP] at this
      exact absurd this (by simp)
    by_cases hb : b = blkno
    · subst hb
      have hpar := phase2ApplyFold_parent txid b
        (phase2Collect s.store s.vstate.emptyLeafPagesMap (s.store b).nsn
          (s.store b).tuples.length (s.store b).tuples 1 []).enum s hne
      have hlen : (phase2Collect s.store s.vstate.emptyLeafPagesMap (s.store b).nsn
          (s.store b).tuples.length (s.store b).tuples 1 []).length ≤
          (s.store b).tuples.length - 1 := by
        have := phase2Collect_length s.store s.vstate.emptyLeafPagesMap (s.store b).nsn
          (s.store b).tuples.length (s.store b).tuples 1 []
        simpa using this
      right; right; right
      refine ⟨hpar.1, hpar.2.1, hpar.2.2.1, ?_⟩
    -- the enum has the same length as the queue, so at least one
    -- downlink survives
      intro hpos
      simp only [phase2Apply]
      have hlen2 := hpar.2.2.2
      rw [List.enum_length] at hlen2
      omega
    · by_cases hq : ∃ p ∈ (phase2Collect s.store s.vstate.emptyLeafPagesMap
          (s.store blkno).nsn (s.store blkno).tuples.length (s.store blkno).tuples 1 []).enum,
          b = (p : Nat × Nat × Nat).2.2
      · right; left
        exact phase2ApplyFold_marks txid blkno _ s b hq
      · right; right; left
        push_neg at hq
        exact phase2ApplyFold_frame txid blkno _ s b hb hq
theorem storeEvolves_phase2Loop (txid : Nat) :
    ∀ (fuel : Nat) (s : VacScanState) (x : Nat),
      StoreEvolves s.store (phase2Loop txid fuel s x).store := by
  intro fuel
  induction fuel with
  | zero => intro s x; exact storeEvolves_refl s.store
  | succ n ih =>
    intro s x
    rw [show phase2Loop txid (n + 1) s x =
        (if 0 < s.vstate.emptyPages then
          if blockset_next_emb s.vstate.internalPagesMap x = InvalidBlockNumber then s
          else phase2Loop txid n
            (phase2ProcessPage txid s (blockset_next_emb s.vstate.internalPagesMap x))
            (blockset_next_emb s.vstate.internalPagesMap x)
        else s) from rfl]
    split
    · split
      · exact storeEvolves_refl s.store
      · exact storeEvolves_trans (storeEvolves_processPage txid s _) (ih _ _)
    · exact storeEvolves_refl s.store
/-- A whole vacuum scan respects the page-evolution discipline. -/
theorem storeEvolves_scan (callback : VacCallback) (startNSN txid chaseFuel p2Fuel : Nat)
    (store : Store) (numPages : Nat) (stats : IndexBulkDeleteResult) :
    StoreEvolves store
      (gistvacuumscan callback startNSN txid chaseFuel p2Fuel store numPages stats).store := by
  simp only [gistvacuumscan, gistvacuumscanPhase1End, gistvacuumscanPhase1]
  split
  · exact storeEvolves_trans
      (storeEvolves_phase1 callback chaseFuel (List.range numPages) _)
      (storeEvolves_phase2Loop txid p2Fuel _ _)
  · exact storeEvolves_phase1 callback chaseFuel (List.range numPages) _
/-- `gistvacuumcleanup` invoked with prior stats returns the index
unchanged (it only post-processes the statistics). -/
theorem gistvacuumcleanup_some_store (info : IndexVacuumInfoM)
    (startNSN txid chaseFuel p2Fuel : Nat) (store : Store) (numPages : Nat)
    (st : IndexBulkDeleteResult) :
    (gistvacuumcleanup info startNSN txid chaseFuel p2Fuel store numPages (some st)).1
      = store := by
  simp only [gistvacuumcleanup]
  split <;> rfl
theorem storeA_inv : StoreInv storeA := by
  intro b
  by_cases h0 : b = 0 <;> by_cases h1 : b = 1 <;> by_cases h2 : b = 2 <;>
    simp [storeA, h0, h1, h2, blankPage, leafTup]
/-- C2: per internal page and pass, phase 2 queues at most
`(number of downlinks) - 1` downlinks for removal (the queueing loop
stops one short of the page's downlink count); and across a full
bulk-delete + cleanup run, if every live internal page started with at
least one downlink, every live internal page still has at least one
downlink at the end. -/
theorem C2_downlink_invariant (store : Store) (emptyMap : BlockSet)
    (parentNSN : Nat) (tups : List IndexTupleM) (off : Nat)
    (cb : IndexTupleM → Bool) (info : IndexVacuumInfoM)
    (startNSN txid chaseFuel p2Fuel : Nat) (store0 : Store) (numPages : Nat)
    (hinv : StoreInv store0) :
    (phase2Collect store emptyMap parentNSN tups.length tups off []).length ≤
        tups.length - 1 ∧
    StoreInv (fullRunStore cb info startNSN txid chaseFuel p2Fuel store0 numPages) := by
  constructor
  · have := phase2Collect_length store emptyMap parentNSN tups.length tups off []
    simpa using this
  · unfold fullRunStore
    rw [gistvacuumcleanup_some_store]
    exact storeInv_of_evolves hinv
      (storeEvolves_scan (some cb) startNSN txid chaseFuel p2Fuel store0 numPages emptyStats)
/-- C2 witness: the bound and the invariant at the concrete `storeA`
run (internal root with two downlinks, one empty leaf). -/
theorem C2_downlink_invariant_witness :
    StoreInv storeA ∧
    ((phase2Collect storeA (blockset_set none 1) 10 (storeA 0).tuples.length
        (storeA 0).tuples 1 []).length ≤ (storeA 0).tuples.length - 1 ∧
      StoreInv (fullRunStore (fun _ => false) infoB 1 77 8 8 storeA 3)) :=
  ⟨storeA_inv,
    C2_downlink_invariant storeA (blockset_set none 1) 10 (storeA 0).tuples 1
      (fun _ => false) infoB 1 77 8 8 storeA 3 storeA_inv⟩
/-! ### Accounting of pages_deleted (C10) -/
/-- In phase 1, `pages_deleted` and the free-page counter move in
lockstep: one body step increments both (on a new/recycled page) or
neither. -/
theorem gistvacuumpageBody_pd_tfp (callback : VacCallback) (s : VacScanState)
    (blkno orig_blkno : Nat) :
    ((gistvacuumpageBody callback s blkno orig_blkno).1).stats.pages_deleted
        + s.vstate.totFreePages =
      s.stats.pages_deleted
        + ((gistvacuumpageBody callback s blkno orig_blkno).1).vstate.totFreePages := by
  rcases callback with _ | f <;>
  · simp only [gistvacuumpageBody]
    repeat' split
    all_goals simp
    all_goals omega
theorem gistvacuumpage_pd_tfp (callback : VacCallback) (fuel : Nat) :
    ∀ (s : VacScanState) (blkno orig_blkno : Nat),
      (gistvacuumpage callback fuel s blkno orig_blkno).stats.pages_deleted
          + s.vstate.totFreePages =
        s.stats.pages_deleted
          + (gistvacuumpage callback fuel s blkno orig_blkno).vstate.totFreePages := by
  induction fuel with
  | zero => intro s _ _; rfl
  | succ n ih =>
    intro s blkno orig_blkno
    rcases hbody : gistvacuumpageBody callback s blkno orig_blkno with ⟨s', ro⟩
    have hb := gistvacuumpageBody_pd_tfp callback s blkno orig_blkno
    rw [hbody] at hb
    have hstep : gistvacuumpage callback (n + 1) s blkno orig_blkno =
        (match gistvacuumpageBody callback s blkno orig_blkno with
         | (s2, none) => s2
         | (s2, some r) => gistvacuumpage callback n s2 r orig_blkno) := rfl
    rw [hstep, hbody]
    rcases ro with _ | r
    · exact hb
    · have h2 := ih s' r orig_blkno
      simp only at hb
      show (gistvacuumpage callback n s' r orig_blkno).stats.pages_deleted
            + s.vstate.totFreePages
          = s.stats.pages_deleted
            + (gistvacuumpage callback n s' r orig_blkno).vstate.totFreePages
      omega
theorem gistvacuumscanPhase1_pd_tfp (callback : VacCallback) (chaseFuel : Nat) :
    ∀ (l : List Nat) (s : VacScanState),
      (l.foldl (fun s b => gistvacuumpage callback chaseFuel s b b) s).stats.pages_deleted
          + s.vstate.totFreePages =
        s.stats.pages_deleted
          + (l.foldl (fun s b => gistvacuumpage callback chaseFuel s b b) s).vstate.totFreePages := by
  intro l
  induction l with
  | nil => intro s; rfl
  | cons b rest ih =>
    intro s
    rw [List.foldl_cons]
    have h1 := gistvacuumpage_pd_tfp callback chaseFuel s b b
    have h2 := ih (gistvacuumpage callback chaseFuel s b b)
    omega
/-- At the end of phase 1 the running `pages_deleted` equals the
`pages_free` the scan just stored (both count the new/recycled pages
phase 1 encountered). -/
theorem gistvacuumscanPhase1End_pd_pf (callback : VacCallback)
    (startNSN chaseFuel : Nat) (store : Store) (numPages : Nat)
    (stats : IndexBulkDeleteResult) :
    (gistvacuumscanPhase1End callback startNSN chaseFuel store numPages stats).stats.pages_deleted
      = (gistvacuumscanPhase1End callback startNSN chaseFuel store numPages
          stats).stats.pages_free := by
  simp only [gistvacuumscanPhase1End, gistvacuumscanPhase1]
  have h := gistvacuumscanPhase1_pd_tfp callback chaseFuel (List.range numPages)
    { store := store,
      stats := { stats with estimated_count := false, num_index_tuples := 0,
                            pages_deleted := 0 },
      vstate := { startNSN := startNSN, totFreePages := 0, emptyPages := 0,
                  internalPagesMap := none, emptyLeafPagesMap := none } }
  try simp only at h
  try simp only
  omega
theorem phase2ApplyFold_pd (txid parentBlk : Nat) :
    ∀ (pairs : List (Nat × Nat × Nat)) (s : VacScanState),
      ((pairs.foldl (fun s p => phase2ApplyOne txid parentBlk s p.1 p.2) s).stats.pages_deleted
          = s.stats.pages_deleted + pairs.length ∧
       (pairs.foldl (fun s p => phase2ApplyOne txid parentBlk s p.1 p.2) s).stats.pages_free
          = s.stats.pages_free) := by
  intro pairs
  induction pairs with
  | nil => intro s; exact ⟨rfl, rfl⟩
  | cons p ps ih =>
    intro s
    rw [List.foldl_cons]
    have h2 := ih (phase2ApplyOne txid parentBlk s p.1 p.2)
    have hone : (phase2ApplyOne txid parentBlk s p.1 p.2).stats.pages_deleted
          = s.stats.pages_deleted + 1 ∧
        (phase2ApplyOne txid parentBlk s p.1 p.2).stats.pages_free
          = s.stats.pages_free := ⟨rfl, rfl⟩
    refine ⟨?_, h2.2.trans hone.2⟩
    rw [h2.1, hone.1, List.length_cons]
    omega
/-- One phase-2 page visit adds exactly the number of downlinks it
queued (the loop's `ntodelete`) to `pages_deleted`, and never touches
`pages_free`. -/
theorem phase2ProcessPage_pd (txid : Nat) (s : VacScanState) (blkno : Nat) :
    (phase2ProcessPage txid s blkno).stats.pages_deleted =
      s.stats.pages_deleted +
        (if ((s.store blkno).isNew || (s.store blkno).isDeleted || (s.store blkno).isLeaf)
          = true then 0
         else (phase2Collect s.store s.vstate.emptyLeafPagesMap (s.store blkno).nsn
           (s.store blkno).tuples.length (s.store blkno).tuples 1 []).length) ∧
    (phase2ProcessPage txid s blkno).stats.pages_free = s.stats.pages_free := by
  by_cases h : ((s.store blkno).isNew || (s.store blkno).isDeleted || (s.store blkno).isLeaf)
      = true
  · simp [phase2ProcessPage, h]
  · simp only [phase2ProcessPage, h, if_neg, if_false]
    have hfold := phase2ApplyFold_pd txid blkno
      (phase2Collect s.store s.vstate.emptyLeafPagesMap (s.store blkno).nsn
        (s.store blkno).tuples.length (s.store blkno).tuples 1 []).enum s
    rw [List.enum_length] at hfold
    exact hfold
theorem phase2Loop_pd (txid : Nat) :
    ∀ (fuel : Nat) (s : VacScanState) (x : Nat),
      (phase2Loop txid fuel s x).stats.pages_deleted =
        s.stats.pages_deleted + phase2RetiredSum txid fuel s x ∧
      (phase2Loop txid fuel s x).stats.pages_free = s.stats.pages_free := by
  intro fuel
  induction fuel with
  | zero => intro s x; exact ⟨rfl, rfl⟩
  | succ n ih =>
    intro s x
    rw [show phase2Loop txid (n + 1) s x =
        (if 0 < s.vstate.emptyPages then
          if blockset_next_emb s.vstate.internalPagesMap x = InvalidBlockNumber then s
          else phase2Loop txid n
            (phase2ProcessPage txid s (blockset_next_emb s.vstate.internalPagesMap x))
            (blockset_next_emb s.vstate.internalPagesMap x)
        else s) from rfl]
    rw [show phase2RetiredSum txid (n + 1) s x =
        (if 0 < s.vstate.emptyPages then
          if blockset_next_emb s.vstate.internalPagesMap x = InvalidBlockNumber then 0
          else
            (if ((s.store (blockset_next_emb s.vstate.internalPagesMap x)).isNew
                || (s.store (blockset_next_emb s.vstate.internalPagesMap x)).isDeleted
                || (s.store (blockset_next_emb s.vstate.internalPagesMap x)).isLeaf)
              = true then 0
             else (phase2Collect s.store s.vstate.emptyLeafPagesMap
               (s.store (blockset_next_emb s.vstate.internalPagesMap x)).nsn
               (s.store (blockset_next_emb s.vstate.internalPagesMap x)).tuples.length
               (s.store (blockset_next_emb s.vstate.internalPagesMap x)).tuples 1 []).length)
            + phase2RetiredSum txid n
                (phase2ProcessPage txid s (blockset_next_emb s.vstate.internalPagesMap x))
                (blockset_next_emb s.vstate.internalPagesMap x)
        else 0) from rfl]
    split
    · split
      · simp
      · have hproc := phase2ProcessPage_pd txid s (blockset_next_emb s.vstate.internalPagesMap x)
        have hrec := ih (phase2ProcessPage txid s (blockset_next_emb s.vstate.internalPagesMap x))
          (blockset_next_emb s.vstate.internalPagesMap x)
        refine ⟨?_, hrec.2.trans hproc.2⟩
        rw [hrec.1, hproc.1]
        omega
    · simp
/-- C10: in phase 1, a page found new or already deleted increments
`pages_deleted` together with the free-page counter; consequently the
`pages_deleted` a bulk-delete run returns equals the count of
new/already-deleted pages phase 1 encountered (the run's `pages_free`)
plus the number of empty leaves phase 2 retired — not only the newly
retired leaves. -/
theorem C10_pages_deleted_accounting (callback : VacCallback)
    (s : VacScanState) (blkno orig_blkno : Nat)
    (startNSN txid chaseFuel p2Fuel : Nat) (store : Store) (numPages : Nat)
    (stats0 : Option IndexBulkDeleteResult)
    (hnd : ((s.store blkno).isNew || (s.store blkno).isDeleted) = true) :
    (((gistvacuumpageBody callback s blkno orig_blkno).1).stats.pages_deleted
        = s.stats.pages_deleted + 1 ∧
     ((gistvacuumpageBody callback s blkno orig_blkno).1).vstate.totFreePages
        = s.vstate.totFreePages + 1) ∧
    (gistbulkdelete callback startNSN txid chaseFuel p2Fuel store numPages
        stats0).stats.pages_deleted
      = (gistbulkdelete callback startNSN txid chaseFuel p2Fuel store numPages
          stats0).stats.pages_free
        + (if 0 < (gistvacuumscanPhase1End callback startNSN chaseFuel store numPages
              (stats0.getD emptyStats)).vstate.emptyPages
           then phase2RetiredSum txid p2Fuel
             (gistvacuumscanPhase1End callback startNSN chaseFuel store numPages
               (stats0.getD emptyStats)) InvalidBlockNumber
           else 0) := by
  constructor
  · constructor <;> simp [gistvacuumpageBody, hnd]
  · have hpf := gistvacuumscanPhase1End_pd_pf callback startNSN chaseFuel store numPages
      (stats0.getD emptyStats)
    simp only [gistbulkdelete, gistvacuumscan]
    split
    · have hloop := phase2Loop_pd txid p2Fuel
        (gistvacuumscanPhase1End callback startNSN chaseFuel store numPages
          (stats0.getD emptyStats)) InvalidBlockNumber
      rw [hloop.1, hloop.2, hpf]
    · rw [Nat.add_zero]
      exact hpf
/-- C10 witness: the claim at a concrete run — page 3 of the fixture is
new, and the `storeA` bulk delete satisfies the accounting identity. -/
theorem C10_pages_deleted_accounting_witness :
    ((p2State.store 3).isNew || (p2State.store 3).isDeleted) = true ∧
    ((((gistvacuumpageBody (some (fun _ => false)) p2State 3 3).1).stats.pages_deleted
        = p2State.stats.pages_deleted + 1 ∧
      ((gistvacuumpageBody (some (fun _ => false)) p2State 3 3).1).vstate.totFreePages
        = p2State.vstate.totFreePages + 1) ∧
    (gistbulkdelete (some (fun _ => false)) 1 77 8 8 storeA 3 none).stats.pages_deleted
      = (gistbulkdelete (some (fun _ => false)) 1 77 8 8 storeA 3 none).stats.pages_free
        + (if 0 < (gistvacuumscanPhase1End (some (fun _ => false)) 1 8 storeA 3
              ((none : Option IndexBulkDeleteResult).getD emptyStats)).vstate.emptyPages
           then phase2RetiredSum 77 8
             (gistvacuumscanPhase1End (some (fun _ => false)) 1 8 storeA 3
               ((none : Option IndexBulkDeleteResult).getD emptyStats)) InvalidBlockNumber
           else 0)) :=
  ⟨by decide,
    C10_pages_deleted_accounting (some (fun _ => false)) p2State 3 3 1 77 8 8 storeA 3 none
      (by decide)⟩
end GistVacuum
